import Mathlib

/-!
binderhub-container-registry-helper: the request-dispatch pipeline of package `common`

A shallow embedding of `common/registry.go`: the authorization gate
(`CheckAuthorised`), the route dispatcher (`RegistryServer.ServeHTTP`), the
metrics instrument (`prometheusMiddleware` with its `statusRecorder`), the
path parsers (`RepoGetName`, `ImageGetNameAndTag`) and the error handlers
(`NotFound`, `NotAuthorised`, `InternalServerError`).

Conventions of the embedding

* A Go `string` is a `List Char`.  Every string operation of the source
  (`==`, `strings.HasPrefix`, `strings.TrimPrefix`, `strings.LastIndex` and
  `strings.Split` with an ASCII separator, the regular expressions with ASCII
  literals and the class `\S`) cuts a string only next to an ASCII character,
  so it acts on the characters as it acts on the UTF-8 bytes.
* A handler is a function on an explicit `World`: the calls that reached the
  server's `http.ResponseWriter`, the `statusCode` field of the request's
  `statusRecorder`, and the package-level histogram `httpDuration`.
* Logging (`log.Println`, `fmt.Println`) and the wall clock (`time.Now`,
  `time.Since`) leave no trace in the `World`: a sample is its label triple.
* A handler of another package (a backend operation, a wrapped handler whose
  writer is decorated) is the sequence of calls it makes on the writer it is
  handed (`scriptHandler`).
* What `InternalServerError` takes from the standard library beyond string
  equality (`os.Getenv`, the Unicode case tables, `json.Marshal`) is a
  `Runtime` it is given.
-/

namespace Common

/-! ## Go strings -/

/-- A Go string. -/
abbrev GoString := List Char

/-- Go `strings.HasPrefix(s, prefix)`. -/
def HasPrefix (s pre : GoString) : Bool :=
  pre.isPrefixOf s

/-- Go `strings.TrimPrefix(s, prefix)`: `s` without the leading `prefix`, or `s`
itself when it does not start with `prefix`. -/
def TrimPrefix (s pre : GoString) : GoString :=
  if HasPrefix s pre then s.drop pre.length else s

/-- Go `strings.LastIndex(s, substr)`: the index of the last instance of
`substr` in `s`, or `-1` when there is none. -/
def LastIndex : GoString → GoString → Int
  | [], substr => if substr = [] then 0 else -1
  | c :: cs, substr =>
    let later := LastIndex cs substr
    if 0 ≤ later then later + 1
    else if HasPrefix (c :: cs) substr then 0
    else -1

/-- Go `strings.Split(s, sep)` for a separator `sep` of one character (the
source splits on `"/"` only): the pieces of `s` between the separators; the
empty string gives one empty piece. -/
def Split : GoString → Char → List GoString
  | [], _ => [[]]
  | c :: cs, sep =>
    if c = sep then [] :: Split cs sep
    else
      match Split cs sep with
      | [] => [[c]]
      | piece :: pieces => (c :: piece) :: pieces

/-- Go `fmt.Sprintf("%d", n)`: the decimal numeral of an `int`. -/
def Sprintf_d (n : Int) : GoString :=
  (toString n).toList

/-! ## Regular expressions (Go `regexp`, RE2 syntax) -/

/-- The RE2 class `\s`, which is `[\t\n\f\r ]`. -/
def isSpace (c : Char) : Bool :=
  c = '\t' || c = '\n' || c = '\x0c' || c = '\r' || c = ' '

/-- The fragment of RE2 syntax the four route patterns are written in.
`empty` matches no string; it is no pattern of the source and only arises as a
derivative. -/
inductive Regex where
  | empty : Regex
  | eps : Regex
  | char (c : Char) : Regex
  | notSpace : Regex
  | seq (a b : Regex) : Regex
  | alt (a b : Regex) : Regex
  | star (a : Regex) : Regex
  deriving DecidableEq, Repr

namespace Regex

/-- The literal string `l`. -/
def lit : GoString → Regex
  | [] => eps
  | c :: cs => seq (char c) (lit cs)

/-- The pattern `a+`. -/
def plus (a : Regex) : Regex := seq a (star a)

/-- The pattern `a?`. -/
def opt (a : Regex) : Regex := alt a eps

/-- Whether the pattern matches the empty string. -/
def nullable : Regex → Bool
  | empty => false
  | eps => true
  | char _ => false
  | notSpace => false
  | seq a b => nullable a && nullable b
  | alt a b => nullable a || nullable b
  | star _ => true

/-- The derivative of a pattern by a character `c`: the pattern of the strings
`s` such that `c :: s` matches. -/
def deriv (c : Char) : Regex → Regex
  | empty => empty
  | eps => empty
  | char d => if c = d then eps else empty
  | notSpace => if isSpace c then empty else eps
  | seq a b => if nullable a then alt (seq (deriv c a) b) (deriv c b) else seq (deriv c a) b
  | alt a b => alt (deriv c a) (deriv c b)
  | star a => seq (deriv c a) (star a)

/-- Go `re.MatchString(s)` for a pattern written `^re$` (all four patterns of
the source are): without flags `^` is the start and `$` the end of the text, so
the whole of `s` has to match `re`. -/
def MatchString (re : Regex) (s : GoString) : Bool :=
  nullable (s.foldl (fun r c => deriv c r) re)

/-- The strings a pattern denotes. -/
inductive Matches : Regex → GoString → Prop where
  | eps : Matches eps []
  | char (c : Char) : Matches (char c) [c]
  | notSpace (c : Char) : isSpace c = false → Matches notSpace [c]
  | seq {a b : Regex} {x y : GoString} : Matches a x → Matches b y → Matches (seq a b) (x ++ y)
  | altLeft {a b : Regex} {x : GoString} : Matches a x → Matches (alt a b) x
  | altRight {a b : Regex} {x : GoString} : Matches b x → Matches (alt a b) x
  | starNil {a : Regex} : Matches (star a) []
  | starCons {a : Regex} {x y : GoString} : Matches a x → Matches (star a) y →
      Matches (star a) (x ++ y)

end Regex

/-- Source: `listReposRe = regexp.MustCompile("^/repos/$")`. -/
def listReposRe : Regex := Regex.lit "/repos/".toList

/-- Source: `repoRe = regexp.MustCompile("^/repo/(\S+)$")`. -/
def repoRe : Regex := Regex.seq (Regex.lit "/repo/".toList) (Regex.plus Regex.notSpace)

/-- Source: `imageRe = regexp.MustCompile("^/image/(\S+)$")`. -/
def imageRe : Regex := Regex.seq (Regex.lit "/image/".toList) (Regex.plus Regex.notSpace)

/-- Source: `tokenRe = regexp.MustCompile("^/token(/\S*)?$")`. -/
def tokenRe : Regex :=
  Regex.seq (Regex.lit "/token".toList)
    (Regex.opt (Regex.seq (Regex.char '/') (Regex.star Regex.notSpace)))

/-! ## net/http: requests, response writers, handlers -/

/-- Go `http.Header`, a map from header name to the values of that header. -/
abbrev Header := List (GoString × List GoString)

/-- Go `Header.Get(key)` for a key in canonical form: the first value of the
header, or the empty string when the header is absent. -/
def Header.Get (h : Header) (key : GoString) : GoString :=
  match h.lookup key with
  | some (v :: _) => v
  | _ => []

/-- Go `url.URL`, of which the source reads `Path` only. -/
structure URL where
  Path : GoString
  deriving DecidableEq, Repr

/-- Go `http.Request`, of which the source reads `Method`, `URL.Path` and
`Header`. -/
structure Request where
  Method : GoString
  URL : URL
  Header : Header
  deriving DecidableEq, Repr

/-- Go `http.MethodGet`. -/
def MethodGet : GoString := "GET".toList

/-- Go `http.MethodPost`. -/
def MethodPost : GoString := "POST".toList

/-- Go `http.MethodDelete`. -/
def MethodDelete : GoString := "DELETE".toList

/-- Go `http.StatusForbidden`. -/
def StatusForbidden : Int := 403

/-- Go `http.StatusNotFound`. -/
def StatusNotFound : Int := 404

/-- A method call on the `http.ResponseWriter` of the server:
`w.Header().Set(key, value)`, `w.WriteHeader(statusCode)` or `w.Write(data)`. -/
inductive WriterCall where
  | HeaderSet (key value : GoString) : WriterCall
  | WriteHeader (statusCode : Int) : WriterCall
  | Write (data : GoString) : WriterCall
  deriving DecidableEq, Repr

/-- One observation of the histogram `httpDuration`: its label values, in the
order of the source, `[]string{"method", "path", "status"}`. -/
structure Sample where
  method : GoString
  path : GoString
  status : GoString
  deriving DecidableEq, Repr

/-- What the pipeline reads and writes while it serves one request. -/
structure World where
  /-- The calls received so far by the `http.ResponseWriter` the server made
  for this request, oldest first. -/
  wire : List WriterCall
  /-- The field `statusCode` of the `statusRecorder` of this request. -/
  statusCode : Int
  /-- The observations made so far on the package-level `httpDuration`. -/
  httpDuration : List Sample
  deriving DecidableEq, Repr

/-- Go interface `http.ResponseWriter`: its three methods, `Header()` being
used by the source for `Header().Set` only. -/
structure ResponseWriter where
  HeaderSet : GoString → GoString → World → World
  Write : GoString → World → World
  WriteHeader : Int → World → World

/-- The `http.ResponseWriter` of the server: each call reaches the wire. -/
def serverWriter : ResponseWriter where
  HeaderSet := fun key value s => { s with wire := s.wire ++ [WriterCall.HeaderSet key value] }
  Write := fun data s => { s with wire := s.wire ++ [WriterCall.Write data] }
  WriteHeader := fun statusCode s => { s with wire := s.wire ++ [WriterCall.WriteHeader statusCode] }

/-- The status line net/http sends for a sequence of writer calls: the code of
the first `WriteHeader`, or 200 when a `Write` (or the end of the handler)
comes first. -/
def responseStatus : List WriterCall → Int
  | [] => 200
  | WriterCall.WriteHeader statusCode :: _ => statusCode
  | WriterCall.Write _ :: _ => 200
  | WriterCall.HeaderSet _ _ :: calls => responseStatus calls

/-- The response body of a sequence of writer calls: the written data, in
order. -/
def responseBody : List WriterCall → GoString
  | [] => []
  | WriterCall.Write data :: calls => data ++ responseBody calls
  | _ :: calls => responseBody calls

/-- The codes passed to `WriteHeader` in a sequence of writer calls, in
order. -/
def writeHeaderCodes : List WriterCall → List Int
  | [] => []
  | WriterCall.WriteHeader statusCode :: calls => statusCode :: writeHeaderCodes calls
  | _ :: calls => writeHeaderCodes calls

/-- The codes `WriteHeader` of net/http accepts: its `checkWriteHeaderCode`
panics on a code below 100 or above 999. -/
def validStatusCode (statusCode : Int) : Bool :=
  decide (100 ≤ statusCode) && decide (statusCode ≤ 999)

/-- Go interface `http.Handler`: `ServeHTTP(w, r)`. -/
abbrev Handler := ResponseWriter → Request → World → World

/-- One call of a script on the writer `w`. -/
def performCall (w : ResponseWriter) (s : World) : WriterCall → World
  | WriterCall.HeaderSet key value => w.HeaderSet key value s
  | WriterCall.WriteHeader statusCode => w.WriteHeader statusCode s
  | WriterCall.Write data => w.Write data s

/-- A handler of another package, as the pipeline sees it: the sequence of
calls it makes, for a request, on the `http.ResponseWriter` it is handed, in a
run in which the handler returns. A run that panics, as the writer of net/http
does on a `WriteHeader` code that is not a `validStatusCode`, is no such
sequence. -/
def scriptHandler (script : Request → List WriterCall) : Handler :=
  fun w r s => (script r).foldl (performCall w) s

/-! ## registry.go -/

/-- Source: `NotFound`, the handler that returns a 404 HTTP error. -/
def NotFound : Handler := fun w _r s =>
  let s := w.WriteHeader StatusNotFound s
  w.Write "null\n".toList s

/-- Source: `NotAuthorised`, the handler that returns a 403 HTTP error. -/
def NotAuthorised : Handler := fun w _r s =>
  let s := w.WriteHeader StatusForbidden s
  w.Write ("\x7b\"error\": \"not authorised\"\x7d".toList ++ "\n".toList) s

/-- Source: `CheckAuthorised` wraps `originalHandler` to check for a valid
Authorization header. -/
def CheckAuthorised (originalHandler : Handler) (authToken : GoString) : Handler :=
  fun w r s =>
    let authorised : Bool :=
      if authToken = [] then true
      else
        let authHeader := r.Header.Get "Authorization".toList
        if HasPrefix authHeader "Bearer ".toList then
          let bearerToken := TrimPrefix authHeader "Bearer ".toList
          decide (authToken = bearerToken)
        else false
    if !authorised then NotAuthorised w r s
    else originalHandler w r s

/-- Source: `RepoGetName` extracts the repository name from the request path;
`Except.error` carries the message of the returned error. -/
def RepoGetName (r : Request) : Except GoString GoString :=
  if !HasPrefix r.URL.Path "/repo/".toList then
    Except.error ("Invalid path: ".toList ++ r.URL.Path)
  else
    let name := TrimPrefix r.URL.Path "/repo/".toList
    Except.ok name

/-- Source: `ImageGetNameAndTag` extracts the repository name and tag from the
request path; `Except.error` carries the message of the returned error. The
slices `fullname[:sep]` and `fullname[sep+1:]` are `take` and `drop`. -/
def ImageGetNameAndTag (r : Request) : Except GoString (GoString × GoString) :=
  if !HasPrefix r.URL.Path "/image/".toList then
    Except.error ("Invalid path: ".toList ++ r.URL.Path)
  else
    let fullname := TrimPrefix r.URL.Path "/image/".toList
    let sep := LastIndex fullname ":".toList
    let repoName := if sep > -1 then fullname.take sep.toNat else fullname
    let tag := if sep > -1 then fullname.drop (sep + 1).toNat else "latest".toList
    if tag = [] then
      Except.error ("Invalid tag in path: ".toList ++ r.URL.Path)
    else
      Except.ok (repoName, tag)

/-- Source: `IRegistryClient`, the interface that all registry helpers must
implement. -/
structure IRegistryClient where
  ListRepositories : Handler
  GetRepository : Handler
  GetImage : Handler
  CreateRepository : Handler
  DeleteRepository : Handler
  GetToken : Handler

/-- Source: `RegistryServer`, the handler that passes requests to the registry
helper implementation. -/
structure RegistryServer where
  Client : IRegistryClient

/-- Source: `statusRecorder{w, 0}` with its method `WriteHeader`, which records
and writes the status code; `Header` and `Write` are promoted from the embedded
`http.ResponseWriter`. -/
def statusRecorder (w : ResponseWriter) : ResponseWriter where
  HeaderSet := w.HeaderSet
  Write := w.Write
  WriteHeader := fun statusCode s => w.WriteHeader statusCode { s with statusCode := statusCode }

/-- Source: `prometheusMiddleware` wraps `originalHandler` to record the
duration of requests. The observed duration is outside the model. The call of
`Observe` is not deferred: it is reached when `originalHandler.ServeHTTP`
returns, which is the run described here; when that call panics no sample is
recorded. -/
def prometheusMiddleware (originalHandler : Handler) : Handler :=
  fun w r s =>
    let components := Split r.URL.Path '/'
    let path : GoString :=
      if h : components.length > 1 then "/".toList ++ components.get ⟨1, h⟩ else "/".toList
    let rw := statusRecorder w
    let s := { s with statusCode := 0 }
    let s := originalHandler rw r s
    { s with httpDuration := s.httpDuration ++ [⟨r.Method, path, Sprintf_d s.statusCode⟩] }

/-- Source: `RegistryServer.ServeHTTP` passes requests to the registry helper
implementation. -/
def RegistryServer.ServeHTTP (h : RegistryServer) : Handler :=
  fun w r s =>
    let s := w.HeaderSet "content-type".toList "application/json".toList s
    if r.Method = MethodGet ∧ listReposRe.MatchString r.URL.Path = true then
      h.Client.ListRepositories w r s
    else if r.Method = MethodGet ∧ repoRe.MatchString r.URL.Path = true then
      h.Client.GetRepository w r s
    else if r.Method = MethodGet ∧ imageRe.MatchString r.URL.Path = true then
      h.Client.GetImage w r s
    else if r.Method = MethodPost ∧ repoRe.MatchString r.URL.Path = true then
      h.Client.CreateRepository w r s
    else if r.Method = MethodDelete ∧ repoRe.MatchString r.URL.Path = true then
      h.Client.DeleteRepository w r s
    else if r.Method = MethodPost ∧ tokenRe.MatchString r.URL.Path = true then
      h.Client.GetToken w r s
    else
      NotFound w r s

/-- Source: `CreateServer`: the handler `h` it registers on the mux for the
patterns `/repos/`, `/repo/`, `/image/` and `/token/`. -/
def CreateServer (registryH : IRegistryClient) (authToken : GoString) : Handler :=
  let serverH : RegistryServer := { Client := registryH }
  let authorisedH := CheckAuthorised serverH.ServeHTTP authToken
  prometheusMiddleware authorisedH

/-! ## The route table as data -/

/-- The six operations of `IRegistryClient`. -/
inductive Op where
  | ListRepositories | GetRepository | GetImage | CreateRepository | DeleteRepository | GetToken
  deriving DecidableEq, Repr

/-- The method of the client that implements an operation. -/
def IRegistryClient.method (c : IRegistryClient) : Op → Handler
  | Op.ListRepositories => c.ListRepositories
  | Op.GetRepository => c.GetRepository
  | Op.GetImage => c.GetImage
  | Op.CreateRepository => c.CreateRepository
  | Op.DeleteRepository => c.DeleteRepository
  | Op.GetToken => c.GetToken

/-- A case of the switch of `RegistryServer.ServeHTTP`: the method, the
pattern, and the operation of its body. -/
structure RouteCase where
  method : GoString
  pattern : Regex
  op : Op
  deriving DecidableEq, Repr

/-- Whether the condition of a case holds for a method and a path. -/
def RouteCase.matches (c : RouteCase) (method path : GoString) : Bool :=
  decide (method = c.method) && c.pattern.MatchString path

/-- The six cases of the switch of `RegistryServer.ServeHTTP`, in the order of
the source. -/
def routeCases : List RouteCase :=
  [ ⟨MethodGet, listReposRe, Op.ListRepositories⟩,
    ⟨MethodGet, repoRe, Op.GetRepository⟩,
    ⟨MethodGet, imageRe, Op.GetImage⟩,
    ⟨MethodPost, repoRe, Op.CreateRepository⟩,
    ⟨MethodDelete, repoRe, Op.DeleteRepository⟩,
    ⟨MethodPost, tokenRe, Op.GetToken⟩ ]

/-- The operation a switch over `cases` selects: that of the first case whose
condition holds, `none` standing for the `default` branch. -/
def selectOp (cases : List RouteCase) (method path : GoString) : Option Op :=
  (cases.find? (fun c => c.matches method path)).map RouteCase.op

/-- The dispatcher with the cases of its switch given as a list, tried in
order: `RegistryServer.ServeHTTP` is `serveCases routeCases`. -/
def serveCases (cases : List RouteCase) (h : RegistryServer) : Handler :=
  fun w r s =>
    let s := w.HeaderSet "content-type".toList "application/json".toList s
    match selectOp cases r.Method r.URL.Path with
    | some op => h.Client.method op w r s
    | none => NotFound w r s

/-- The client whose operations are the given scripts. -/
def scriptClient (script : Op → Request → List WriterCall) : IRegistryClient where
  ListRepositories := scriptHandler (script Op.ListRepositories)
  GetRepository := scriptHandler (script Op.GetRepository)
  GetImage := scriptHandler (script Op.GetImage)
  CreateRepository := scriptHandler (script Op.CreateRepository)
  DeleteRepository := scriptHandler (script Op.DeleteRepository)
  GetToken := scriptHandler (script Op.GetToken)

/-- The name of an operation, as the interface `IRegistryClient` spells it. -/
def Op.name : Op → GoString
  | Op.ListRepositories => "ListRepositories".toList
  | Op.GetRepository => "GetRepository".toList
  | Op.GetImage => "GetImage".toList
  | Op.CreateRepository => "CreateRepository".toList
  | Op.DeleteRepository => "DeleteRepository".toList
  | Op.GetToken => "GetToken".toList

/-- A client for concrete runs: each operation writes its own name as the
body and sets no status. -/
def probeClient : IRegistryClient :=
  scriptClient (fun op _ => [WriterCall.Write op.name])

/-- The calls the pipeline `CheckAuthorised(RegistryServer)` makes on its
writer when the operations of the client are the given scripts: those of
`NotAuthorised` for a request the gate rejects; otherwise the content type,
followed by the calls of the selected operation or those of `NotFound`. -/
def pipelineCalls (script : Op → Request → List WriterCall) (authToken : GoString)
    (r : Request) : List WriterCall :=
  if authToken = [] ∨ r.Header.Get "Authorization".toList = "Bearer ".toList ++ authToken then
    WriterCall.HeaderSet "content-type".toList "application/json".toList ::
      (match selectOp routeCases r.Method r.URL.Path with
        | some op => script op r
        | none => [WriterCall.WriteHeader 404, WriterCall.Write "null\n".toList])
  else
    [WriterCall.WriteHeader 403, WriterCall.Write "\x7b\"error\": \"not authorised\"\x7d\n".toList]

/-- A fresh response: nothing written yet, with the histogram as it stands. -/
def World.fresh (httpDuration : List Sample) : World :=
  { wire := [], statusCode := 0, httpDuration := httpDuration }

/-- The wrapper `wrap` invokes the handler it wraps, once and on the writer,
request and world it was given itself, and does nothing else: whatever handler
is wrapped, the outcome of the wrapper is the outcome of that handler. -/
def InvokesWrapped (wrap : Handler → Handler) (w : ResponseWriter) (r : Request)
    (s : World) : Prop :=
  ∀ h : Handler, wrap h w r s = h w r s

/-- The wrapper `wrap` does not invoke the handler it wraps: its outcome is
the same whatever handler is wrapped. -/
def IgnoresWrapped (wrap : Handler → Handler) (w : ResponseWriter) (r : Request)
    (s : World) : Prop :=
  ∀ h h2 : Handler, wrap h w r s = wrap h2 w r s

/-! ## Response headers, the 500 handler -/

/-- The value of a response header when net/http sends the header block: that
of the last `Header().Set` for the key among the calls made before the first
`WriteHeader` or `Write`, `none` when the handler has set no such header by
then. Keys are compared as the source writes them. -/
def responseHeader (key : GoString) : List WriterCall → Option GoString
  | [] => none
  | WriterCall.HeaderSet k v :: calls =>
    match responseHeader key calls with
    | some later => some later
    | none => if k = key then some v else none
  | WriterCall.WriteHeader _ :: _ => none
  | WriterCall.Write _ :: _ => none

/-- Go `http.StatusInternalServerError`. -/
def StatusInternalServerError : Int := 500

/-- What `InternalServerError` takes from outside the package. -/
structure Runtime where
  /-- Go `os.Getenv(key)`: the value of the environment variable, empty when
  it is unset. -/
  Getenv : GoString → GoString
  /-- Go `unicode.ToLower(r)` on the runes beyond ASCII (the Unicode case
  tables). -/
  unicodeLower : Char → Char
  /-- Go `json.Marshal(v)` for a `map[string]string`, given as its entries:
  the bytes it returns. -/
  Marshal : List (GoString × GoString) → GoString

/-- Go `strings.ToLower(s)`: every rune mapped by `unicode.ToLower`, which
lowers the ASCII letters `A` to `Z` itself and looks the other runes up in the
case tables. -/
def ToLower (unicodeLower : Char → Char) (s : GoString) : GoString :=
  s.map (fun c => if c.val < 128 then c.toLower else unicodeLower c)

/-- The loop of `InternalServerError` over the flag values: at the first value
equal to `return_error` the marshalled object replaces `jsonBytes` and the loop
breaks; when no value is equal `jsonBytes` stays. -/
def rangeReturnError (return_error marshalled : GoString) : List GoString → GoString → GoString
  | [], jsonBytes => jsonBytes
  | v :: vs, jsonBytes =>
    if return_error = v then marshalled
    else rangeReturnError return_error marshalled vs jsonBytes

/-- Source: `InternalServerError`, the handler that returns a 500 HTTP error.
The argument `errorResponse` is the message `errorResponse.Error()` of the Go
error. -/
def InternalServerError (rt : Runtime) (errorResponse : GoString) : Handler := fun w _r s =>
  let errObj : List (GoString × GoString) := [("error".toList, errorResponse)]
  let jsonBytes : GoString := "\x7b\"error\": \"internal server error\"\x7d".toList
  let return_error := ToLower rt.unicodeLower (rt.Getenv "RETURN_ERROR_DETAILS".toList)
  let jsonBytes := rangeReturnError return_error (rt.Marshal errObj)
    ["true".toList, "1".toList, "yes".toList] jsonBytes
  let jsonBytes := jsonBytes ++ ['\n']
  let s := w.WriteHeader StatusInternalServerError s
  w.Write jsonBytes s

/-- JSON whitespace skipped. -/
def jsonSkip (s : GoString) : GoString :=
  s.dropWhile (fun c => c = ' ' || c = '\t' || c = '\n' || c = '\r')

/-- The rest of a text after the expected character, if it starts with it. -/
def jsonExpect (c : Char) : GoString → Option GoString
  | [] => none
  | d :: rest => if d = c then some rest else none

/-- A JSON string without escape sequences at the head of a text: its content
and the rest of the text. -/
def jsonPlainString : GoString → Option (GoString × GoString)
  | [] => none
  | d :: rest =>
    if d = '"' then
      match rest.dropWhile (fun c => c ≠ '"' && c ≠ '\\') with
      | e :: after =>
        if e = '"' then some (rest.takeWhile (fun c => c ≠ '"' && c ≠ '\\'), after) else none
      | [] => none
    else none

/-- The value of the field `error` of a JSON text that is an object with that
one field, its value a string without escape sequences; `none` for any other
text. -/
def jsonErrorField (body : GoString) : Option GoString :=
  match jsonExpect '\x7b' (jsonSkip body) with
  | none => none
  | some s1 =>
    match jsonPlainString (jsonSkip s1) with
    | none => none
    | some (key, s2) =>
      if key = "error".toList then
        match jsonExpect ':' (jsonSkip s2) with
        | none => none
        | some s3 =>
          match jsonPlainString (jsonSkip s3) with
          | none => none
          | some (value, s4) =>
            match jsonExpect '\x7d' (jsonSkip s4) with
            | none => none
            | some s5 => if jsonSkip s5 = [] then some value else none
      else none

/-- A runtime for concrete runs: the flag has the given value, the runes
beyond ASCII are left as they are, and an object of one entry is marshalled
without escaping. -/
def plainRuntime (flag : GoString) : Runtime where
  Getenv := fun key => if key = "RETURN_ERROR_DETAILS".toList then flag else []
  unicodeLower := fun c => c
  Marshal := fun entries =>
    match entries with
    | [(key, value)] =>
      "\x7b\"".toList ++ key ++ "\":\"".toList ++ value ++ "\"\x7d".toList
    | _ => "\x7b\x7d".toList

/-! ## Theorems -/

namespace Regex

theorem nullable_iff (r : Regex) : nullable r = true ↔ Matches r [] := by
  induction r with
  | empty => simp only [nullable]; constructor
             · intro h; cases h
             · intro h; cases h
  | eps => simp only [nullable]; exact ⟨fun _ => Matches.eps, fun _ => trivial⟩
  | char c => simp only [nullable]; constructor
              · intro h; cases h
              · intro h; cases h
  | notSpace => simp only [nullable]; constructor
                · intro h; cases h
                · intro h; cases h
  | seq a b iha ihb =>
    simp only [nullable, Bool.and_eq_true, iha, ihb]
    constructor
    · rintro ⟨h1, h2⟩
      exact Matches.seq h1 h2
    · intro h
      generalize hs : ([] : GoString) = s at h
      cases h with
      | seq h1 h2 =>
        rename_i x y
        have hx : x = [] := (List.append_eq_nil.mp hs.symm).1
        have hy : y = [] := (List.append_eq_nil.mp hs.symm).2
        subst hx; subst hy
        exact ⟨h1, h2⟩
  | alt a b iha ihb =>
    simp only [nullable, Bool.or_eq_true, iha, ihb]
    constructor
    · rintro (h | h)
      · exact Matches.altLeft h
      · exact Matches.altRight h
    · intro h
      cases h with
      | altLeft h => exact Or.inl h
      | altRight h => exact Or.inr h
  | star a _ => simp only [nullable]; exact ⟨fun _ => Matches.starNil, fun _ => trivial⟩

theorem matches_of_deriv (c : Char) (r : Regex) :
    ∀ s : GoString, Matches (deriv c r) s → Matches r (c :: s) := by
  induction r with
  | empty => intro s h; simp only [deriv] at h; cases h
  | eps => intro s h; simp only [deriv] at h; cases h
  | char d =>
    intro s h
    simp only [deriv] at h
    by_cases hcd : c = d
    · rw [if_pos hcd] at h
      cases h
      subst hcd
      exact Matches.char c
    · rw [if_neg hcd] at h
      cases h
  | notSpace =>
    intro s h
    simp only [deriv] at h
    cases hsp : isSpace c with
    | true => simp only [hsp, if_true] at h; cases h
    | false =>
      simp only [hsp] at h
      cases h
      exact Matches.notSpace c hsp
  | seq a b iha ihb =>
    intro s h
    simp only [deriv] at h
    cases hn : nullable a with
    | true =>
      simp only [hn, if_true] at h
      cases h with
      | altLeft h =>
        cases h with
        | seq h1 h2 => exact Matches.seq (iha _ h1) h2
      | altRight h =>
        exact Matches.seq ((nullable_iff a).mp hn) (ihb _ h)
    | false =>
      simp only [hn] at h
      cases h with
      | seq h1 h2 => exact Matches.seq (iha _ h1) h2
  | alt a b iha ihb =>
    intro s h
    simp only [deriv] at h
    cases h with
    | altLeft h => exact Matches.altLeft (iha _ h)
    | altRight h => exact Matches.altRight (ihb _ h)
  | star a iha =>
    intro s h
    simp only [deriv] at h
    cases h with
    | seq h1 h2 => exact Matches.starCons (iha _ h1) h2

theorem deriv_of_matches (c : Char) {r : Regex} {t : GoString} (h : Matches r t) :
    ∀ s : GoString, t = c :: s → Matches (deriv c r) s := by
  induction h with
  | eps => intro s hs; cases hs
  | char d =>
    intro s hs
    injection hs with h1 h2
    subst h1; subst h2
    simp only [deriv, if_true]
    exact Matches.eps
  | notSpace d hd =>
    intro s hs
    injection hs with h1 h2
    subst h1; subst h2
    simp only [deriv, hd]
    exact Matches.eps
  | @seq a b x y h1 h2 ih1 ih2 =>
    intro s hs
    cases x with
    | nil =>
      have hna : nullable a = true := (nullable_iff a).mpr h1
      simp only [deriv, hna, if_true]
      exact Matches.altRight (ih2 s hs)
    | cons d x1 =>
      injection hs with hd hx
      subst hd; subst hx
      have hl : Matches (seq (deriv d a) b) (x1 ++ y) := Matches.seq (ih1 x1 rfl) h2
      simp only [deriv]
      cases hn : nullable a with
      | true => simp only [if_true]; exact Matches.altLeft hl
      | false => simpa using hl
  | altLeft h ih => intro s hs; simp only [deriv]; exact Matches.altLeft (ih s hs)
  | altRight h ih => intro s hs; simp only [deriv]; exact Matches.altRight (ih s hs)
  | starNil => intro s hs; cases hs
  | @starCons a x y h1 h2 ih1 ih2 =>
    intro s hs
    cases x with
    | nil => exact ih2 s hs
    | cons d x1 =>
      injection hs with hd hx
      subst hd; subst hx
      simp only [deriv]
      exact Matches.seq (ih1 x1 rfl) h2

theorem matches_deriv_iff (c : Char) (r : Regex) (s : GoString) :
    Matches (deriv c r) s ↔ Matches r (c :: s) :=
  ⟨matches_of_deriv c r s, fun h => deriv_of_matches c h s rfl⟩

/-- The derivative matcher decides the denotation of a pattern. -/
theorem MatchString_iff (r : Regex) (s : GoString) : MatchString r s = true ↔ Matches r s := by
  unfold MatchString
  induction s generalizing r with
  | nil => simpa using nullable_iff r
  | cons c cs ih =>
    rw [List.foldl_cons, ih (deriv c r)]
    exact matches_deriv_iff c r cs

theorem matches_eps_iff (s : GoString) : Matches eps s ↔ s = [] := by
  constructor
  · intro h; cases h; rfl
  · rintro rfl; exact Matches.eps

theorem matches_char_iff (c : Char) (s : GoString) : Matches (char c) s ↔ s = [c] := by
  constructor
  · intro h; cases h; rfl
  · rintro rfl; exact Matches.char c

theorem matches_seq_iff (a b : Regex) (s : GoString) :
    Matches (seq a b) s ↔ ∃ x y, s = x ++ y ∧ Matches a x ∧ Matches b y := by
  constructor
  · intro h
    cases h with
    | seq h1 h2 => exact ⟨_, _, rfl, h1, h2⟩
  · rintro ⟨x, y, rfl, h1, h2⟩
    exact Matches.seq h1 h2

theorem matches_alt_iff (a b : Regex) (s : GoString) :
    Matches (alt a b) s ↔ Matches a s ∨ Matches b s := by
  constructor
  · intro h
    cases h with
    | altLeft h => exact Or.inl h
    | altRight h => exact Or.inr h
  · rintro (h | h)
    · exact Matches.altLeft h
    · exact Matches.altRight h

theorem matches_lit_iff (l s : GoString) : Matches (lit l) s ↔ s = l := by
  induction l generalizing s with
  | nil => simpa [lit] using matches_eps_iff s
  | cons c cs ih =>
    simp only [lit, matches_seq_iff, matches_char_iff, ih]
    constructor
    · rintro ⟨x, y, rfl, rfl, rfl⟩; rfl
    · rintro rfl; exact ⟨[c], cs, rfl, rfl, rfl⟩

theorem matches_star_notSpace_iff (s : GoString) :
    Matches (star notSpace) s ↔ ∀ c ∈ s, isSpace c = false := by
  constructor
  · intro h
    generalize hr : star notSpace = r at h
    induction h with
    | eps => cases hr
    | char _ => cases hr
    | notSpace _ _ => cases hr
    | seq _ _ _ _ => cases hr
    | altLeft _ _ => cases hr
    | altRight _ _ => cases hr
    | starNil => intro c hc; cases hc
    | @starCons a x y h1 h2 _ ih2 =>
      injection hr with ha
      subst ha
      cases h1 with
      | notSpace d hd =>
        intro c hc
        rcases List.mem_cons.mp hc with rfl | hc
        · exact hd
        · exact ih2 rfl c hc
  · intro h
    induction s with
    | nil => exact Matches.starNil
    | cons c cs ih =>
      have h1 : Matches notSpace [c] := Matches.notSpace c (h c (List.mem_cons_self c cs))
      exact Matches.starCons h1 (ih (fun d hd => h d (List.mem_cons_of_mem c hd)))

theorem matches_plus_notSpace_iff (s : GoString) :
    Matches (plus notSpace) s ↔ s ≠ [] ∧ ∀ c ∈ s, isSpace c = false := by
  unfold plus
  rw [matches_seq_iff]
  constructor
  · rintro ⟨x, y, rfl, h1, h2⟩
    cases h1 with
    | notSpace d hd =>
      refine ⟨by simp, ?_⟩
      intro c hc
      rcases List.mem_cons.mp hc with rfl | hc
      · exact hd
      · exact (matches_star_notSpace_iff y).mp h2 c hc
  · rintro ⟨hne, h⟩
    cases s with
    | nil => exact absurd rfl hne
    | cons c cs =>
      exact ⟨[c], cs, rfl, Matches.notSpace c (h c (List.mem_cons_self c cs)),
        (matches_star_notSpace_iff cs).mpr (fun d hd => h d (List.mem_cons_of_mem c hd))⟩

end Regex

/-- The pattern of `listReposRe` matches the path `/repos/` and no other. -/
theorem listReposRe_match (p : GoString) :
    listReposRe.MatchString p = true ↔ p = "/repos/".toList := by
  rw [Regex.MatchString_iff, listReposRe, Regex.matches_lit_iff]

/-- The pattern of `repoRe` matches `/repo/` followed by one or more
non-whitespace characters. -/
theorem repoRe_match (p : GoString) :
    repoRe.MatchString p = true ↔
      ∃ rest, p = "/repo/".toList ++ rest ∧ rest ≠ [] ∧ ∀ c ∈ rest, isSpace c = false := by
  rw [Regex.MatchString_iff, repoRe, Regex.matches_seq_iff]
  constructor
  · rintro ⟨x, y, rfl, hx, hy⟩
    rw [Regex.matches_lit_iff] at hx
    subst hx
    exact ⟨y, rfl, (Regex.matches_plus_notSpace_iff y).mp hy⟩
  · rintro ⟨rest, rfl, h⟩
    exact ⟨_, rest, rfl, (Regex.matches_lit_iff _ _).mpr rfl,
      (Regex.matches_plus_notSpace_iff rest).mpr h⟩

/-- The pattern of `imageRe` matches `/image/` followed by one or more
non-whitespace characters. -/
theorem imageRe_match (p : GoString) :
    imageRe.MatchString p = true ↔
      ∃ rest, p = "/image/".toList ++ rest ∧ rest ≠ [] ∧ ∀ c ∈ rest, isSpace c = false := by
  rw [Regex.MatchString_iff, imageRe, Regex.matches_seq_iff]
  constructor
  · rintro ⟨x, y, rfl, hx, hy⟩
    rw [Regex.matches_lit_iff] at hx
    subst hx
    exact ⟨y, rfl, (Regex.matches_plus_notSpace_iff y).mp hy⟩
  · rintro ⟨rest, rfl, h⟩
    exact ⟨_, rest, rfl, (Regex.matches_lit_iff _ _).mpr rfl,
      (Regex.matches_plus_notSpace_iff rest).mpr h⟩

/-- The pattern of `tokenRe` matches `/token`, and `/token/` followed by any
number (zero included) of non-whitespace characters. -/
theorem tokenRe_match (p : GoString) :
    tokenRe.MatchString p = true ↔
      p = "/token".toList ∨
        ∃ rest, p = "/token/".toList ++ rest ∧ ∀ c ∈ rest, isSpace c = false := by
  rw [Regex.MatchString_iff, tokenRe, Regex.matches_seq_iff]
  constructor
  · rintro ⟨x, y, rfl, hx, hy⟩
    rw [Regex.matches_lit_iff] at hx
    subst hx
    rw [Regex.opt, Regex.matches_alt_iff, Regex.matches_seq_iff, Regex.matches_eps_iff] at hy
    rcases hy with ⟨u, v, rfl, hu, hv⟩ | rfl
    · rw [Regex.matches_char_iff] at hu
      subst hu
      exact Or.inr ⟨v, rfl, (Regex.matches_star_notSpace_iff v).mp hv⟩
    · exact Or.inl (by simp)
  · rintro (rfl | ⟨rest, rfl, h⟩)
    · refine ⟨_, [], by simp, (Regex.matches_lit_iff _ _).mpr rfl, ?_⟩
      exact Regex.Matches.altRight Regex.Matches.eps
    · refine ⟨"/token".toList, '/' :: rest, rfl, (Regex.matches_lit_iff _ _).mpr rfl, ?_⟩
      exact Regex.Matches.altLeft
        (Regex.Matches.seq (Regex.Matches.char '/') ((Regex.matches_star_notSpace_iff rest).mpr h))



/-! ## The authorization gate -/

theorem hasPrefix_iff (s pre : GoString) : HasPrefix s pre = true ↔ ∃ t, s = pre ++ t := by
  unfold HasPrefix
  rw [List.isPrefixOf_iff_prefix]
  constructor
  · rintro ⟨t, rfl⟩; exact ⟨t, rfl⟩
  · rintro ⟨t, rfl⟩; exact ⟨t, rfl⟩

theorem hasPrefix_append (pre t : GoString) : HasPrefix (pre ++ t) pre = true :=
  (hasPrefix_iff _ _).mpr ⟨t, rfl⟩

theorem trimPrefix_append (pre t : GoString) : TrimPrefix (pre ++ t) pre = t := by
  unfold TrimPrefix
  rw [if_pos (hasPrefix_append pre t)]
  exact List.drop_left pre t

/-- A string has the prefix and the given remainder exactly when it is the
prefix followed by the remainder. -/
theorem hasPrefix_trimPrefix_iff (a pre tok : GoString) :
    (HasPrefix a pre = true ∧ tok = TrimPrefix a pre) ↔ a = pre ++ tok := by
  constructor
  · rintro ⟨h1, h2⟩
    obtain ⟨t, rfl⟩ := (hasPrefix_iff a pre).mp h1
    rw [trimPrefix_append] at h2
    rw [h2]
  · rintro rfl
    exact ⟨hasPrefix_append pre tok, (trimPrefix_append pre tok).symm⟩

/-- The gate in one line: the wrapped handler runs when the token is empty or
the header is `Bearer ` followed by the token, and `NotAuthorised` otherwise. -/
theorem checkAuthorised_eq (h : Handler) (authToken : GoString) (w : ResponseWriter)
    (r : Request) (s : World) :
    CheckAuthorised h authToken w r s =
      if authToken = [] ∨ r.Header.Get "Authorization".toList = "Bearer ".toList ++ authToken
      then h w r s else NotAuthorised w r s := by
  have hiff := hasPrefix_trimPrefix_iff (r.Header.Get "Authorization".toList)
    "Bearer ".toList authToken
  unfold CheckAuthorised
  simp only []
  by_cases ht : authToken = []
  · rw [if_pos (Or.inl ht), if_pos ht]
    rfl
  · rw [if_neg ht]
    by_cases hh : r.Header.Get "Authorization".toList = "Bearer ".toList ++ authToken
    · obtain ⟨hp, he⟩ := hiff.mpr hh
      rw [if_pos (Or.inr hh), if_pos hp, decide_eq_true he]
      rfl
    · have hor : ¬ (authToken = [] ∨
          r.Header.Get "Authorization".toList = "Bearer ".toList ++ authToken) :=
        fun hc => hc.elim ht hh
      rw [if_neg hor]
      by_cases hp : HasPrefix (r.Header.Get "Authorization".toList) "Bearer ".toList = true
      · have he : ¬ authToken = TrimPrefix (r.Header.Get "Authorization".toList) "Bearer ".toList :=
          fun he => hh (hiff.mp ⟨hp, he⟩)
        rw [if_pos hp, decide_eq_false he]
        rfl
      · rw [if_neg hp]
        rfl

/-- Two worlds that differ exist for any world: a handler can always be told
from `NotAuthorised` by its outcome. -/
theorem exists_ne_world (x : World) : ∃ y : World, y ≠ x := by
  refine ⟨{ x with statusCode := x.statusCode + 1 }, ?_⟩
  intro hxy
  have := congrArg World.statusCode hxy
  simp at this

/-- C1: with a non-empty configured token, the handler returned by
`CheckAuthorised` invokes the wrapped handler if and only if the Authorization
header equals `Bearer ` followed by the token; for any other header value
(missing, wrong scheme, wrong token) the wrapped handler is not invoked, the
gate makes the two calls of `NotAuthorised`, and the response status is 403. -/
theorem checkAuthorised_token_gate (authToken : GoString) (hne : authToken ≠ [])
    (w : ResponseWriter) (r : Request) (s : World) :
    (InvokesWrapped (fun h => CheckAuthorised h authToken) w r s ↔
        r.Header.Get "Authorization".toList = "Bearer ".toList ++ authToken) ∧
    (r.Header.Get "Authorization".toList ≠ "Bearer ".toList ++ authToken →
      IgnoresWrapped (fun h => CheckAuthorised h authToken) w r s ∧
      (∀ h : Handler, CheckAuthorised h authToken w r s =
        w.Write "\x7b\"error\": \"not authorised\"\x7d\n".toList (w.WriteHeader 403 s)) ∧
      (∀ (h : Handler) (m : List Sample),
        responseStatus (CheckAuthorised h authToken serverWriter r (World.fresh m)).wire = 403)) := by
  have hrej : r.Header.Get "Authorization".toList ≠ "Bearer ".toList ++ authToken →
      ∀ (h : Handler) (w1 : ResponseWriter) (s1 : World),
        CheckAuthorised h authToken w1 r s1 = NotAuthorised w1 r s1 := by
    intro hh h w1 s1
    have hor : ¬ (authToken = [] ∨
        r.Header.Get "Authorization".toList = "Bearer ".toList ++ authToken) :=
      fun hc => hc.elim hne hh
    rw [checkAuthorised_eq, if_neg hor]
  refine ⟨⟨?_, ?_⟩, fun hh => ⟨?_, ?_, ?_⟩⟩
  · intro hinv
    by_contra hh
    obtain ⟨y, hy⟩ := exists_ne_world (NotAuthorised w r s)
    have h1 := hinv (fun _ _ _ => y)
    simp only [hrej hh] at h1
    exact hy h1.symm
  · intro hh h
    show CheckAuthorised h authToken w r s = h w r s
    rw [checkAuthorised_eq, if_pos (Or.inr hh)]
  · intro h h2
    show CheckAuthorised h authToken w r s = CheckAuthorised h2 authToken w r s
    rw [hrej hh, hrej hh]
  · intro h
    rw [hrej hh]
    rfl
  · intro h m
    rw [hrej hh]
    rfl

/-- C1 at work: the token is `secret`; `POST /token` with `Bearer secret` is
dispatched to the get-token operation, with `Bearer wrong` it is answered
403 and nothing of the backend runs. -/
theorem checkAuthorised_token_gate_witness :
    ("secret".toList ≠ [] ∧
    (((InvokesWrapped (fun h => CheckAuthorised h "secret".toList) serverWriter
        ⟨MethodPost, ⟨"/token".toList⟩, [("Authorization".toList, ["Bearer wrong".toList])]⟩
        (World.fresh []) ↔
      Header.Get [("Authorization".toList, ["Bearer wrong".toList])] "Authorization".toList
        = "Bearer ".toList ++ "secret".toList)) ∧
    responseStatus (CheckAuthorised
        (RegistryServer.ServeHTTP ⟨scriptClient (fun _ _ => [WriterCall.Write "tok".toList])⟩)
        "secret".toList serverWriter
        ⟨MethodPost, ⟨"/token".toList⟩, [("Authorization".toList, ["Bearer wrong".toList])]⟩
        (World.fresh [])).wire = 403) ∧
    (CheckAuthorised
        (RegistryServer.ServeHTTP ⟨scriptClient (fun _ _ => [WriterCall.Write "tok".toList])⟩)
        "secret".toList serverWriter
        ⟨MethodPost, ⟨"/token".toList⟩, [("Authorization".toList, ["Bearer secret".toList])]⟩
        (World.fresh [])).wire =
      [WriterCall.HeaderSet "content-type".toList "application/json".toList,
        WriterCall.Write "tok".toList]) :=
  ⟨by decide,
    ⟨(checkAuthorised_token_gate "secret".toList (by decide) serverWriter
        ⟨MethodPost, ⟨"/token".toList⟩, [("Authorization".toList, ["Bearer wrong".toList])]⟩
        (World.fresh [])).1,
      ((checkAuthorised_token_gate "secret".toList (by decide) serverWriter
        ⟨MethodPost, ⟨"/token".toList⟩, [("Authorization".toList, ["Bearer wrong".toList])]⟩
        (World.fresh [])).2 (by decide)).2.2 _ []⟩,
    by decide⟩

/-- C2: with the empty configured token the handler returned by
`CheckAuthorised` never rejects: whatever the request and its headers, it
invokes the wrapped handler (once, on the untouched writer and world) and
writes nothing itself; so `GET /repos/` without an Authorization header is
dispatched to the list-repositories operation. -/
theorem checkAuthorised_empty_token (w : ResponseWriter) (r : Request) (s : World) :
    InvokesWrapped (fun h => CheckAuthorised h []) w r s ∧
    (∀ client : IRegistryClient,
      CheckAuthorised (RegistryServer.ServeHTTP ⟨client⟩) [] w
          ⟨MethodGet, ⟨"/repos/".toList⟩, []⟩ s =
        client.ListRepositories w ⟨MethodGet, ⟨"/repos/".toList⟩, []⟩
          (w.HeaderSet "content-type".toList "application/json".toList s)) := by
  have hinv : ∀ (h : Handler) (r1 : Request), CheckAuthorised h [] w r1 s = h w r1 s := by
    intro h r1
    rw [checkAuthorised_eq, if_pos (Or.inl rfl)]
  refine ⟨fun h => hinv h r, fun client => ?_⟩
  rw [hinv]
  have hm : listReposRe.MatchString "/repos/".toList = true := by decide
  simp only [RegistryServer.ServeHTTP, hm, and_self, if_true]

/-! ## The route dispatcher -/

theorem methodGet_ne_methodPost : MethodGet ≠ MethodPost := by decide

theorem methodGet_ne_methodDelete : MethodGet ≠ MethodDelete := by decide

theorem methodPost_ne_methodDelete : MethodPost ≠ MethodDelete := by decide

/-- No path matches both the list pattern and the repo pattern. -/
theorem listReposRe_repoRe_disjoint (p : GoString) (h1 : listReposRe.MatchString p = true)
    (h2 : repoRe.MatchString p = true) : False := by
  rw [listReposRe_match] at h1
  obtain ⟨rest, h2, -⟩ := (repoRe_match p).mp h2
  rw [h1] at h2
  simp at h2

/-- No path matches both the list pattern and the image pattern. -/
theorem listReposRe_imageRe_disjoint (p : GoString) (h1 : listReposRe.MatchString p = true)
    (h2 : imageRe.MatchString p = true) : False := by
  rw [listReposRe_match] at h1
  obtain ⟨rest, h2, -⟩ := (imageRe_match p).mp h2
  rw [h1] at h2
  simp at h2

/-- No path matches both the repo pattern and the image pattern. -/
theorem repoRe_imageRe_disjoint (p : GoString) (h1 : repoRe.MatchString p = true)
    (h2 : imageRe.MatchString p = true) : False := by
  obtain ⟨rest, h1, -⟩ := (repoRe_match p).mp h1
  obtain ⟨rest2, h2, -⟩ := (imageRe_match p).mp h2
  rw [h1] at h2
  simp at h2

/-- No path matches both the repo pattern and the token pattern. -/
theorem repoRe_tokenRe_disjoint (p : GoString) (h1 : repoRe.MatchString p = true)
    (h2 : tokenRe.MatchString p = true) : False := by
  obtain ⟨rest, h1, -⟩ := (repoRe_match p).mp h1
  rcases (tokenRe_match p).mp h2 with h2 | ⟨rest2, h2, -⟩
  · rw [h1] at h2
    simp at h2
  · rw [h1] at h2
    simp at h2

/-- The operation selected for a method and path by the six cases in source
order, condition by condition. -/
theorem selectOp_routeCases (m p : GoString) :
    selectOp routeCases m p =
      if m = MethodGet ∧ listReposRe.MatchString p = true then some Op.ListRepositories
      else if m = MethodGet ∧ repoRe.MatchString p = true then some Op.GetRepository
      else if m = MethodGet ∧ imageRe.MatchString p = true then some Op.GetImage
      else if m = MethodPost ∧ repoRe.MatchString p = true then some Op.CreateRepository
      else if m = MethodDelete ∧ repoRe.MatchString p = true then some Op.DeleteRepository
      else if m = MethodPost ∧ tokenRe.MatchString p = true then some Op.GetToken
      else none := by
  unfold selectOp routeCases
  simp only [List.find?, RouteCase.matches]
  by_cases hg : m = MethodGet <;> by_cases hp : m = MethodPost <;>
    by_cases hd : m = MethodDelete <;>
    cases ha : listReposRe.MatchString p <;> cases hb : repoRe.MatchString p <;>
    cases hc : imageRe.MatchString p <;> cases ht : tokenRe.MatchString p <;>
    simp [hg, hp, hd, methodGet_ne_methodPost, methodGet_ne_methodDelete,
      methodPost_ne_methodDelete, methodGet_ne_methodPost.symm, methodGet_ne_methodDelete.symm,
      methodPost_ne_methodDelete.symm]

/-- The switch of `RegistryServer.ServeHTTP` is the first-match dispatch over
the list `routeCases`. -/
theorem serveHTTP_eq_serveCases (h : RegistryServer) (w : ResponseWriter) (r : Request)
    (s : World) : h.ServeHTTP w r s = serveCases routeCases h w r s := by
  unfold RegistryServer.ServeHTTP serveCases
  rw [selectOp_routeCases]
  simp only []
  split_ifs <;> rfl

/-- When a case is selected, the dispatcher sets the content type and runs the
operation of that case, and nothing else. -/
theorem serveHTTP_of_selectOp_some (h : RegistryServer) (w : ResponseWriter) (r : Request)
    (s : World) (op : Op) (hsel : selectOp routeCases r.Method r.URL.Path = some op) :
    h.ServeHTTP w r s =
      h.Client.method op w r (w.HeaderSet "content-type".toList "application/json".toList s) := by
  rw [serveHTTP_eq_serveCases]
  unfold serveCases
  simp only [hsel]

/-- When no case is selected, the dispatcher sets the content type and runs
`NotFound`, whatever the client. -/
theorem serveHTTP_of_selectOp_none (h : RegistryServer) (w : ResponseWriter) (r : Request)
    (s : World) (hsel : selectOp routeCases r.Method r.URL.Path = none) :
    h.ServeHTTP w r s =
      NotFound w r (w.HeaderSet "content-type".toList "application/json".toList s) := by
  rw [serveHTTP_eq_serveCases]
  unfold serveCases
  simp only [hsel]

theorem selectOp_get_repos : selectOp routeCases MethodGet "/repos/".toList
    = some Op.ListRepositories := by decide

theorem selectOp_get_repo (p : GoString) (hb : repoRe.MatchString p = true) :
    selectOp routeCases MethodGet p = some Op.GetRepository := by
  have ha : listReposRe.MatchString p = false :=
    Bool.eq_false_iff.mpr (fun ha => listReposRe_repoRe_disjoint _ ha hb)
  rw [selectOp_routeCases]
  simp [ha, hb]

theorem selectOp_get_image (p : GoString) (hc : imageRe.MatchString p = true) :
    selectOp routeCases MethodGet p = some Op.GetImage := by
  have ha : listReposRe.MatchString p = false :=
    Bool.eq_false_iff.mpr (fun ha => listReposRe_imageRe_disjoint _ ha hc)
  have hb : repoRe.MatchString p = false :=
    Bool.eq_false_iff.mpr (fun hb => repoRe_imageRe_disjoint _ hb hc)
  rw [selectOp_routeCases]
  simp [ha, hb, hc]

theorem selectOp_post_repo (p : GoString) (hb : repoRe.MatchString p = true) :
    selectOp routeCases MethodPost p = some Op.CreateRepository := by
  rw [selectOp_routeCases]
  simp [hb, methodGet_ne_methodPost.symm]

theorem selectOp_delete_repo (p : GoString) (hb : repoRe.MatchString p = true) :
    selectOp routeCases MethodDelete p = some Op.DeleteRepository := by
  rw [selectOp_routeCases]
  simp [hb, methodGet_ne_methodDelete.symm, methodPost_ne_methodDelete.symm]

theorem selectOp_post_token (p : GoString) (ht : tokenRe.MatchString p = true) :
    selectOp routeCases MethodPost p = some Op.GetToken := by
  have hb : repoRe.MatchString p = false :=
    Bool.eq_false_iff.mpr (fun hb => repoRe_tokenRe_disjoint _ hb ht)
  rw [selectOp_routeCases]
  simp [hb, ht, methodGet_ne_methodPost.symm, methodPost_ne_methodDelete]

/-- C3: `RegistryServer.ServeHTTP` follows the route table. For a non-empty
`rest` without whitespace: GET `/repos/` runs ListRepositories, GET
`/repo/rest` GetRepository, GET `/image/rest` GetImage, POST `/repo/rest`
CreateRepository, DELETE `/repo/rest` DeleteRepository, POST `/token` and POST
`/token/rest` GetToken. In each case the outcome is that of one run of that
operation of the client, on the world in which the dispatcher has set the
content type and written nothing else (no 404), and the case selected among
the six is that operation. -/
theorem serveHTTP_route_table (h : RegistryServer) (w : ResponseWriter) (r : Request)
    (s : World) (rest : GoString) (hne : rest ≠ []) (hns : ∀ c ∈ rest, isSpace c = false) :
    (r.Method = MethodGet → r.URL.Path = "/repos/".toList →
      selectOp routeCases r.Method r.URL.Path = some Op.ListRepositories ∧
      h.ServeHTTP w r s = h.Client.ListRepositories w r
        (w.HeaderSet "content-type".toList "application/json".toList s)) ∧
    (r.Method = MethodGet → r.URL.Path = "/repo/".toList ++ rest →
      selectOp routeCases r.Method r.URL.Path = some Op.GetRepository ∧
      h.ServeHTTP w r s = h.Client.GetRepository w r
        (w.HeaderSet "content-type".toList "application/json".toList s)) ∧
    (r.Method = MethodGet → r.URL.Path = "/image/".toList ++ rest →
      selectOp routeCases r.Method r.URL.Path = some Op.GetImage ∧
      h.ServeHTTP w r s = h.Client.GetImage w r
        (w.HeaderSet "content-type".toList "application/json".toList s)) ∧
    (r.Method = MethodPost → r.URL.Path = "/repo/".toList ++ rest →
      selectOp routeCases r.Method r.URL.Path = some Op.CreateRepository ∧
      h.ServeHTTP w r s = h.Client.CreateRepository w r
        (w.HeaderSet "content-type".toList "application/json".toList s)) ∧
    (r.Method = MethodDelete → r.URL.Path = "/repo/".toList ++ rest →
      selectOp routeCases r.Method r.URL.Path = some Op.DeleteRepository ∧
      h.ServeHTTP w r s = h.Client.DeleteRepository w r
        (w.HeaderSet "content-type".toList "application/json".toList s)) ∧
    (r.Method = MethodPost →
      (r.URL.Path = "/token".toList ∨ r.URL.Path = "/token/".toList ++ rest) →
      selectOp routeCases r.Method r.URL.Path = some Op.GetToken ∧
      h.ServeHTTP w r s = h.Client.GetToken w r
        (w.HeaderSet "content-type".toList "application/json".toList s)) := by
  refine ⟨?_, ?_, ?_, ?_, ?_, ?_⟩
  · intro hm hp
    have hsel : selectOp routeCases r.Method r.URL.Path = some Op.ListRepositories := by
      rw [hm, hp]; exact selectOp_get_repos
    exact ⟨hsel, serveHTTP_of_selectOp_some h w r s _ hsel⟩
  · intro hm hp
    have hsel : selectOp routeCases r.Method r.URL.Path = some Op.GetRepository := by
      rw [hm]; exact selectOp_get_repo _ ((repoRe_match _).mpr ⟨rest, hp, hne, hns⟩)
    exact ⟨hsel, serveHTTP_of_selectOp_some h w r s _ hsel⟩
  · intro hm hp
    have hsel : selectOp routeCases r.Method r.URL.Path = some Op.GetImage := by
      rw [hm]; exact selectOp_get_image _ ((imageRe_match _).mpr ⟨rest, hp, hne, hns⟩)
    exact ⟨hsel, serveHTTP_of_selectOp_some h w r s _ hsel⟩
  · intro hm hp
    have hsel : selectOp routeCases r.Method r.URL.Path = some Op.CreateRepository := by
      rw [hm]; exact selectOp_post_repo _ ((repoRe_match _).mpr ⟨rest, hp, hne, hns⟩)
    exact ⟨hsel, serveHTTP_of_selectOp_some h w r s _ hsel⟩
  · intro hm hp
    have hsel : selectOp routeCases r.Method r.URL.Path = some Op.DeleteRepository := by
      rw [hm]; exact selectOp_delete_repo _ ((repoRe_match _).mpr ⟨rest, hp, hne, hns⟩)
    exact ⟨hsel, serveHTTP_of_selectOp_some h w r s _ hsel⟩
  · intro hm hp
    have ht : tokenRe.MatchString r.URL.Path = true := by
      rw [tokenRe_match]
      rcases hp with hp | hp
      · exact Or.inl hp
      · exact Or.inr ⟨rest, hp, hns⟩
    have hsel : selectOp routeCases r.Method r.URL.Path = some Op.GetToken := by
      rw [hm]; exact selectOp_post_token _ ht
    exact ⟨hsel, serveHTTP_of_selectOp_some h w r s _ hsel⟩

/-- C3 at work: `GET /repo/foo` on a client whose operations write their names
runs GetRepository and nothing else. -/
theorem serveHTTP_route_table_witness :
    "foo".toList ≠ [] ∧ (∀ c ∈ "foo".toList, isSpace c = false) ∧
    (selectOp routeCases MethodGet ("/repo/".toList ++ "foo".toList) = some Op.GetRepository ∧
      RegistryServer.ServeHTTP ⟨probeClient⟩ serverWriter
          ⟨MethodGet, ⟨"/repo/".toList ++ "foo".toList⟩, []⟩ (World.fresh []) =
        probeClient.GetRepository serverWriter
          ⟨MethodGet, ⟨"/repo/".toList ++ "foo".toList⟩, []⟩
          (serverWriter.HeaderSet "content-type".toList "application/json".toList
            (World.fresh []))) ∧
    (RegistryServer.ServeHTTP ⟨probeClient⟩ serverWriter
        ⟨MethodGet, ⟨"/repo/foo".toList⟩, []⟩ (World.fresh [])).wire =
      [WriterCall.HeaderSet "content-type".toList "application/json".toList,
        WriterCall.Write "GetRepository".toList] :=
  ⟨by decide, by decide,
    (serveHTTP_route_table ⟨probeClient⟩ serverWriter
      ⟨MethodGet, ⟨"/repo/".toList ++ "foo".toList⟩, []⟩ (World.fresh []) "foo".toList
      (by decide) (by decide)).2.1 rfl rfl,
    by decide⟩

/-! ## Unmatched routes -/

/-- No case is selected exactly when the condition of every case fails. -/
theorem selectOp_eq_none_iff (cases : List RouteCase) (m p : GoString) :
    selectOp cases m p = none ↔ ∀ c ∈ cases, c.matches m p = false := by
  unfold selectOp
  rw [Option.map_eq_none', List.find?_eq_none]
  constructor
  · intro h c hc
    exact Bool.eq_false_iff.mpr (h c hc)
  · intro h c hc
    exact Bool.eq_false_iff.mp (h c hc)

/-- C4 fails as stated: with the token `secret` configured and no
Authorization header, `GET /nothing` matches none of the six cases, and the
pipeline `CheckAuthorised(RegistryServer)` answers 403 with the body of
`NotAuthorised`, not 404 with `null`. -/
theorem unmatched_route_rejected_is_403 :
    (∀ c ∈ routeCases, c.matches MethodGet "/nothing".toList = false) ∧
    responseStatus (CheckAuthorised (RegistryServer.ServeHTTP ⟨probeClient⟩) "secret".toList
        serverWriter ⟨MethodGet, ⟨"/nothing".toList⟩, []⟩ (World.fresh [])).wire = 403 ∧
    responseBody (CheckAuthorised (RegistryServer.ServeHTTP ⟨probeClient⟩) "secret".toList
        serverWriter ⟨MethodGet, ⟨"/nothing".toList⟩, []⟩ (World.fresh [])).wire
      = "\x7b\"error\": \"not authorised\"\x7d\n".toList ∧
    ¬ (responseStatus (CheckAuthorised (RegistryServer.ServeHTTP ⟨probeClient⟩) "secret".toList
          serverWriter ⟨MethodGet, ⟨"/nothing".toList⟩, []⟩ (World.fresh [])).wire = 404 ∧
      responseBody (CheckAuthorised (RegistryServer.ServeHTTP ⟨probeClient⟩) "secret".toList
          serverWriter ⟨MethodGet, ⟨"/nothing".toList⟩, []⟩ (World.fresh [])).wire
        = "null\n".toList) := by
  decide

/-- C4, amended: for a request whose method and path match none of the six
cases, the pipeline `CheckAuthorised(RegistryServer)` answers 404 with body
`null` and a newline and runs no operation of the client (its outcome is that of
`NotFound` after the content type is set, whatever the client) when the gate
admits the request, that is when the configured token is empty or the
Authorization header is `Bearer ` followed by the token; when the gate does
not admit it the answer is the 403 of `NotAuthorised`. -/
theorem unmatched_route_admitted_is_404 (client : IRegistryClient) (authToken : GoString)
    (r : Request) (hun : ∀ c ∈ routeCases, c.matches r.Method r.URL.Path = false) :
    ((authToken = [] ∨ r.Header.Get "Authorization".toList = "Bearer ".toList ++ authToken) →
      (∀ (w : ResponseWriter) (s : World),
        CheckAuthorised (RegistryServer.ServeHTTP ⟨client⟩) authToken w r s =
          NotFound w r (w.HeaderSet "content-type".toList "application/json".toList s)) ∧
      (∀ m : List Sample,
        responseStatus (CheckAuthorised (RegistryServer.ServeHTTP ⟨client⟩) authToken
          serverWriter r (World.fresh m)).wire = 404 ∧
        responseBody (CheckAuthorised (RegistryServer.ServeHTTP ⟨client⟩) authToken
          serverWriter r (World.fresh m)).wire = "null\n".toList)) ∧
    (¬ (authToken = [] ∨ r.Header.Get "Authorization".toList = "Bearer ".toList ++ authToken) →
      (∀ (w : ResponseWriter) (s : World),
        CheckAuthorised (RegistryServer.ServeHTTP ⟨client⟩) authToken w r s =
          NotAuthorised w r s) ∧
      (∀ m : List Sample,
        responseStatus (CheckAuthorised (RegistryServer.ServeHTTP ⟨client⟩) authToken
          serverWriter r (World.fresh m)).wire = 403)) := by
  have hsel : selectOp routeCases r.Method r.URL.Path = none :=
    (selectOp_eq_none_iff _ _ _).mpr hun
  constructor
  · intro hadm
    have heq : ∀ (w : ResponseWriter) (s : World),
        CheckAuthorised (RegistryServer.ServeHTTP ⟨client⟩) authToken w r s =
          NotFound w r (w.HeaderSet "content-type".toList "application/json".toList s) := by
      intro w s
      rw [checkAuthorised_eq, if_pos hadm]
      exact serveHTTP_of_selectOp_none ⟨client⟩ w r s hsel
    refine ⟨heq, fun m => ?_⟩
    rw [heq]
    exact ⟨rfl, rfl⟩
  · intro hrej
    have heq : ∀ (w : ResponseWriter) (s : World),
        CheckAuthorised (RegistryServer.ServeHTTP ⟨client⟩) authToken w r s =
          NotAuthorised w r s := by
      intro w s
      rw [checkAuthorised_eq, if_neg hrej]
    refine ⟨heq, fun m => ?_⟩
    rw [heq]
    rfl

/-- C4 amended, at work: `GET /nothing` with the token `secret` and the header
`Bearer secret` is answered 404 with body `null`. -/
theorem unmatched_route_admitted_is_404_witness :
    (∀ c ∈ routeCases, c.matches MethodGet "/nothing".toList = false) ∧
    responseStatus (CheckAuthorised (RegistryServer.ServeHTTP ⟨probeClient⟩) "secret".toList
        serverWriter
        ⟨MethodGet, ⟨"/nothing".toList⟩, [("Authorization".toList, ["Bearer secret".toList])]⟩
        (World.fresh [])).wire = 404 ∧
    responseBody (CheckAuthorised (RegistryServer.ServeHTTP ⟨probeClient⟩) "secret".toList
        serverWriter
        ⟨MethodGet, ⟨"/nothing".toList⟩, [("Authorization".toList, ["Bearer secret".toList])]⟩
        (World.fresh [])).wire = "null\n".toList :=
  ⟨by decide,
    (((unmatched_route_admitted_is_404 probeClient "secret".toList
      ⟨MethodGet, ⟨"/nothing".toList⟩, [("Authorization".toList, ["Bearer secret".toList])]⟩
      (by decide)).1 (Or.inr (by decide))).2 [])⟩

/-! ## The body of a rejection -/

/-- C5 fails as stated: the body `NotAuthorised` writes is not the string
`{"error":"not authorised"}` followed by a newline; the source has a space
after the colon. -/
theorem notAuthorised_body_has_space :
    responseBody (NotAuthorised serverWriter ⟨MethodGet, ⟨"/repos/".toList⟩, []⟩
        (World.fresh [])).wire ≠ "\x7b\"error\":\"not authorised\"\x7d\n".toList ∧
    responseBody (NotAuthorised serverWriter ⟨MethodGet, ⟨"/repos/".toList⟩, []⟩
        (World.fresh [])).wire = "\x7b\"error\": \"not authorised\"\x7d\n".toList := by
  decide

/-- C5, amended: every rejection by the gate (`NotAuthorised`) writes status
403 and then a body that is exactly `{"error": "not authorised"}`, with one
space after the colon, followed by a single newline. -/
theorem notAuthorised_response (w : ResponseWriter) (r : Request) (s : World)
    (m : List Sample) :
    NotAuthorised w r s =
      w.Write "\x7b\"error\": \"not authorised\"\x7d\n".toList (w.WriteHeader 403 s) ∧
    (NotAuthorised serverWriter r (World.fresh m)).wire =
      [WriterCall.WriteHeader 403, WriterCall.Write "\x7b\"error\": \"not authorised\"\x7d\n".toList] ∧
    responseStatus (NotAuthorised serverWriter r (World.fresh m)).wire = 403 ∧
    responseBody (NotAuthorised serverWriter r (World.fresh m)).wire =
      "\x7b\"error\": \"not authorised\"\x7d\n".toList :=
  ⟨rfl, rfl, rfl, rfl⟩

/-! ## Image references -/

theorem lastIndex_colon_of_not_mem (x : GoString) (h : ':' ∉ x) :
    LastIndex x ":".toList = -1 := by
  induction x with
  | nil => rfl
  | cons c cs ih =>
    have hc : c ≠ ':' := fun hc => h (hc ▸ List.mem_cons_self c cs)
    have hcs : ':' ∉ cs := fun hm => h (List.mem_cons_of_mem c hm)
    have hp : HasPrefix (c :: cs) ":".toList = false := by
      simp [HasPrefix, List.isPrefixOf, Ne.symm hc]
    unfold LastIndex
    simp only [ih hcs, hp]
    decide

theorem lastIndex_colon_append (a b : GoString) (h : ':' ∉ b) :
    LastIndex (a ++ ':' :: b) ":".toList = (a.length : Int) := by
  induction a with
  | nil =>
    have hp : HasPrefix (':' :: b) ":".toList = true := by
      simp [HasPrefix, List.isPrefixOf]
    show LastIndex (':' :: b) ":".toList = 0
    unfold LastIndex
    simp only [lastIndex_colon_of_not_mem b h, hp]
    decide
  | cons c cs ih =>
    show LastIndex (c :: (cs ++ ':' :: b)) ":".toList = ((cs.length + 1 : Nat) : Int)
    unfold LastIndex
    simp only [ih]
    have hnn : (0 : Int) ≤ (cs.length : Int) := Int.ofNat_nonneg _
    rw [if_pos hnn]
    rfl

/-- The parser on a path that starts with `/image/`, as a function of what
follows the prefix. -/
theorem imageGetNameAndTag_on_image_path (r : Request) (x : GoString)
    (hp : r.URL.Path = "/image/".toList ++ x) :
    ImageGetNameAndTag r =
      if (if LastIndex x ":".toList > -1 then x.drop (LastIndex x ":".toList + 1).toNat
          else "latest".toList) = []
      then Except.error ("Invalid tag in path: ".toList ++ r.URL.Path)
      else Except.ok
        (if LastIndex x ":".toList > -1 then x.take (LastIndex x ":".toList).toNat else x,
          if LastIndex x ":".toList > -1 then x.drop (LastIndex x ":".toList + 1).toNat
          else "latest".toList) := by
  unfold ImageGetNameAndTag
  have h1 : HasPrefix r.URL.Path "/image/".toList = true := by
    rw [hp]; exact hasPrefix_append _ _
  have h2 : TrimPrefix r.URL.Path "/image/".toList = x := by
    rw [hp]; exact trimPrefix_append _ _
  simp only [h1, h2, Bool.not_true, Bool.false_eq_true, if_false]

/-- C6: for a path `/image/` followed by `X`, `ImageGetNameAndTag` succeeds
with name `X` and tag `latest` when `X` contains no colon; succeeds with name
`a` and tag `b` when `X` is `a`, a colon, and a non-empty `b` without colon;
and returns an error when `X` ends in a colon. For a path that does not start
with `/image/` it returns an error. -/
theorem imageGetNameAndTag_spec (r : Request) :
    (∀ x : GoString, r.URL.Path = "/image/".toList ++ x → ':' ∉ x →
      ImageGetNameAndTag r = Except.ok (x, "latest".toList)) ∧
    (∀ a b : GoString, r.URL.Path = "/image/".toList ++ (a ++ ":".toList ++ b) →
      b ≠ [] → ':' ∉ b → ImageGetNameAndTag r = Except.ok (a, b)) ∧
    (∀ a : GoString, r.URL.Path = "/image/".toList ++ (a ++ ":".toList) →
      ImageGetNameAndTag r = Except.error ("Invalid tag in path: ".toList ++ r.URL.Path)) ∧
    (¬ ("/image/".toList <+: r.URL.Path) →
      ImageGetNameAndTag r = Except.error ("Invalid path: ".toList ++ r.URL.Path)) := by
  refine ⟨?_, ?_, ?_, ?_⟩
  · intro x hp hx
    rw [imageGetNameAndTag_on_image_path r x hp, lastIndex_colon_of_not_mem x hx]
    rfl
  · intro a b hp hb hcb
    rw [imageGetNameAndTag_on_image_path r _ hp]
    have hl : LastIndex (a ++ ":".toList ++ b) ":".toList = (a.length : Int) := by
      have := lastIndex_colon_append a b hcb
      simpa using this
    have hpos : (a.length : Int) > -1 := by
      have : (0 : Int) ≤ (a.length : Int) := Int.ofNat_nonneg _
      omega
    have hd : (a ++ ":".toList ++ b).drop ((a.length : Int) + 1).toNat = b := by
      have : ((a.length : Int) + 1).toNat = (a ++ ":".toList).length := by
        simp
      rw [this]
      exact List.drop_left _ _
    have ht : (a ++ ":".toList ++ b).take ((a.length : Int)).toNat = a := by
      simp
    rw [hl, if_pos hpos, hd, ht, if_neg hb, if_pos hpos]
  · intro a hp
    rw [imageGetNameAndTag_on_image_path r _ hp]
    have hl : LastIndex (a ++ ":".toList) ":".toList = (a.length : Int) := by
      have := lastIndex_colon_append a [] (by simp)
      simpa using this
    have hpos : (a.length : Int) > -1 := by
      have : (0 : Int) ≤ (a.length : Int) := Int.ofNat_nonneg _
      omega
    have hd : (a ++ ":".toList).drop ((a.length : Int) + 1).toNat = [] := by
      simp
    rw [hl, if_pos hpos, hd, if_pos rfl]
  · intro hnp
    have h1 : HasPrefix r.URL.Path "/image/".toList = false := by
      rw [Bool.eq_false_iff]
      intro h
      obtain ⟨t, ht⟩ := (hasPrefix_iff _ _).mp h
      exact hnp ⟨t, ht.symm⟩
    unfold ImageGetNameAndTag
    simp only [h1, Bool.not_false, if_true]

/-- C6 at work: the four cases on the paths `/image/foo`, `/image/foo:v1`,
`/image/foo:` and `/repo/foo`. -/
theorem imageGetNameAndTag_spec_witness :
    ImageGetNameAndTag ⟨MethodGet, ⟨"/image/".toList ++ "foo".toList⟩, []⟩
      = Except.ok ("foo".toList, "latest".toList) ∧
    ImageGetNameAndTag ⟨MethodGet, ⟨"/image/".toList ++ ("foo".toList ++ ":".toList ++ "v1".toList)⟩, []⟩
      = Except.ok ("foo".toList, "v1".toList) ∧
    ImageGetNameAndTag ⟨MethodGet, ⟨"/image/".toList ++ ("foo".toList ++ ":".toList)⟩, []⟩
      = Except.error ("Invalid tag in path: ".toList ++ ("/image/".toList ++ ("foo".toList ++ ":".toList))) ∧
    ImageGetNameAndTag ⟨MethodGet, ⟨"/repo/foo".toList⟩, []⟩
      = Except.error ("Invalid path: ".toList ++ "/repo/foo".toList) :=
  ⟨(imageGetNameAndTag_spec ⟨MethodGet, ⟨"/image/".toList ++ "foo".toList⟩, []⟩).1
      "foo".toList rfl (by decide),
    (imageGetNameAndTag_spec
      ⟨MethodGet, ⟨"/image/".toList ++ ("foo".toList ++ ":".toList ++ "v1".toList)⟩, []⟩).2.1
      "foo".toList "v1".toList rfl (by decide) (by decide),
    (imageGetNameAndTag_spec
      ⟨MethodGet, ⟨"/image/".toList ++ ("foo".toList ++ ":".toList)⟩, []⟩).2.2.1
      "foo".toList rfl,
    (imageGetNameAndTag_spec ⟨MethodGet, ⟨"/repo/foo".toList⟩, []⟩).2.2.2 (by decide)⟩

/-! ## The metrics instrument -/

/-- The last element of a list, or the given default for the empty list, one
element on. -/
theorem getLast?_getD_cons (c : Int) (cs : List Int) (d : Int) :
    (c :: cs).getLast?.getD d = cs.getLast?.getD c := by
  cases cs with
  | nil => rfl
  | cons e es =>
    rw [List.getLast?_cons_cons]
    cases hx : (e :: es).getLast? with
    | none => simp at hx
    | some x => rfl

theorem getLast?_append_singleton (l : List Sample) (a : Sample) :
    (l ++ [a]).getLast? = some a := by
  simp

/-- A script run on the recorder over the server's writer: every call reaches
the wire, the recorder holds the last code passed to `WriteHeader` (its former
value when there was none), and the histogram is untouched. -/
theorem foldl_performCall_statusRecorder (calls : List WriterCall) (s : World) :
    calls.foldl (performCall (statusRecorder serverWriter)) s =
      { wire := s.wire ++ calls,
        statusCode := (writeHeaderCodes calls).getLast?.getD s.statusCode,
        httpDuration := s.httpDuration } := by
  induction calls generalizing s with
  | nil => simp [writeHeaderCodes]
  | cons c cs ih =>
    rw [List.foldl_cons, ih]
    cases c with
    | HeaderSet key value =>
      simp [performCall, statusRecorder, serverWriter, writeHeaderCodes]
    | WriteHeader statusCode =>
      simp only [performCall, statusRecorder, serverWriter, writeHeaderCodes,
        getLast?_getD_cons, List.append_assoc, List.singleton_append]
    | Write data =>
      simp [performCall, statusRecorder, serverWriter, writeHeaderCodes]

/-- A sequence of calls without `WriteHeader` is sent with the implicit
status 200. -/
theorem responseStatus_of_no_writeHeader (calls : List WriterCall)
    (h : writeHeaderCodes calls = []) : responseStatus calls = 200 := by
  induction calls with
  | nil => rfl
  | cons c cs ih =>
    cases c with
    | HeaderSet key value => exact ih h
    | WriteHeader statusCode => simp [writeHeaderCodes] at h
    | Write data => rfl

/-- The first piece of a split is what stands before the first separator. -/
theorem split_eq_takeWhile_cons (q : GoString) :
    ∃ pieces, Split q '/' = q.takeWhile (fun c => decide (c ≠ '/')) :: pieces := by
  induction q with
  | nil => exact ⟨[], rfl⟩
  | cons c cs ih =>
    obtain ⟨pieces, hp⟩ := ih
    by_cases hc : c = '/'
    · subst hc
      exact ⟨Split cs '/', by simp [Split]⟩
    · refine ⟨pieces, ?_⟩
      simp [Split, hc, hp]

/-- The metrics instrument in one line: it runs the wrapped handler on the
recorder with the field `statusCode` at 0, then adds one sample. -/
theorem prometheusMiddleware_eq (h : Handler) (w : ResponseWriter) (r : Request) (s : World) :
    prometheusMiddleware h w r s =
      { h (statusRecorder w) r { s with statusCode := 0 } with
        httpDuration := (h (statusRecorder w) r { s with statusCode := 0 }).httpDuration ++
          [⟨r.Method,
            if hl : (Split r.URL.Path '/').length > 1
              then "/".toList ++ (Split r.URL.Path '/').get ⟨1, hl⟩ else "/".toList,
            Sprintf_d (h (statusRecorder w) r { s with statusCode := 0 }).statusCode⟩] } :=
  rfl

/-- The path label for a path with a leading slash. -/
theorem pathLabel_of_slash (q : GoString) :
    (if hl : (Split ('/' :: q) '/').length > 1
      then "/".toList ++ (Split ('/' :: q) '/').get ⟨1, hl⟩ else "/".toList) =
    '/' :: q.takeWhile (fun c => decide (c ≠ '/')) := by
  obtain ⟨pieces, hp⟩ := split_eq_takeWhile_cons q
  have hs : Split ('/' :: q) '/' = [] :: q.takeWhile (fun c => decide (c ≠ '/')) :: pieces := by
    simp [Split, hp]
  simp [hs]

theorem scriptClient_method (script : Op → Request → List WriterCall) (op : Op) :
    (scriptClient script).method op = scriptHandler (script op) := by
  cases op <;> rfl

/-- With a client given by scripts, the pipeline `CheckAuthorised(RegistryServer)`
acts on its writer through the calls of `pipelineCalls` and in no other way. -/
theorem pipeline_eq_calls (script : Op → Request → List WriterCall) (authToken : GoString)
    (w : ResponseWriter) (r : Request) (s : World) :
    CheckAuthorised (RegistryServer.ServeHTTP ⟨scriptClient script⟩) authToken w r s =
      (pipelineCalls script authToken r).foldl (performCall w) s := by
  rw [checkAuthorised_eq]
  unfold pipelineCalls
  by_cases hadm : authToken = [] ∨
      r.Header.Get "Authorization".toList = "Bearer ".toList ++ authToken
  · rw [if_pos hadm, if_pos hadm]
    cases hsel : selectOp routeCases r.Method r.URL.Path with
    | none =>
      rw [serveHTTP_of_selectOp_none _ w r s hsel]
      rfl
    | some op =>
      rw [serveHTTP_of_selectOp_some _ w r s op hsel]
      show (scriptClient script).method op w r _ = _
      rw [scriptClient_method]
      rfl
  · rw [if_neg hadm, if_neg hadm]
    rfl

/-- The outcome of the composed pipeline of `CreateServer` for a client given
by scripts. -/
theorem createServer_eq (script : Op → Request → List WriterCall) (authToken : GoString)
    (r : Request) (s : World) :
    CreateServer (scriptClient script) authToken serverWriter r s =
      { wire := s.wire ++ pipelineCalls script authToken r,
        statusCode := (writeHeaderCodes (pipelineCalls script authToken r)).getLast?.getD 0,
        httpDuration := s.httpDuration ++
          [⟨r.Method,
            if hl : (Split r.URL.Path '/').length > 1
              then "/".toList ++ (Split r.URL.Path '/').get ⟨1, hl⟩ else "/".toList,
            Sprintf_d ((writeHeaderCodes (pipelineCalls script authToken r)).getLast?.getD 0)⟩] } := by
  show prometheusMiddleware
      (CheckAuthorised (RegistryServer.ServeHTTP ⟨scriptClient script⟩) authToken)
      serverWriter r s = _
  rw [prometheusMiddleware_eq, pipeline_eq_calls, foldl_performCall_statusRecorder]

/-- C7, the code where the wrapped handler sets no status: when the calls of
the handler contain no `WriteHeader`, the response goes out with the implicit
status 200, but the status label of the sample recorded by
`prometheusMiddleware` is `0`, the initial value of `statusRecorder{w, 0}`,
and not `200`. -/
theorem prometheusMiddleware_implicit_status_label (script : Request → List WriterCall)
    (r : Request) (m : List Sample) (hno : writeHeaderCodes (script r) = []) :
    responseStatus
      (prometheusMiddleware (scriptHandler script) serverWriter r (World.fresh m)).wire = 200 ∧
    (prometheusMiddleware (scriptHandler script) serverWriter r
      (World.fresh m)).httpDuration.getLast?.map Sample.status = some "0".toList ∧
    (prometheusMiddleware (scriptHandler script) serverWriter r
      (World.fresh m)).httpDuration.getLast?.map Sample.status ≠ some "200".toList := by
  have hrun : prometheusMiddleware (scriptHandler script) serverWriter r (World.fresh m) =
      { wire := script r, statusCode := 0,
        httpDuration := m ++
          [⟨r.Method,
            if hl : (Split r.URL.Path '/').length > 1
              then "/".toList ++ (Split r.URL.Path '/').get ⟨1, hl⟩ else "/".toList,
            Sprintf_d 0⟩] } := by
    rw [prometheusMiddleware_eq]
    unfold scriptHandler
    rw [foldl_performCall_statusRecorder, hno]
    simp [World.fresh]
  rw [hrun]
  refine ⟨responseStatus_of_no_writeHeader _ hno, ?_, ?_⟩
  · rw [getLast?_append_singleton]
    rfl
  · rw [getLast?_append_singleton]
    show some (Sprintf_d 0) ≠ some "200".toList
    decide

/-- C7 at a failing input: `GET /repos/` through the whole pipeline of
`CreateServer`, authorization off, on a client whose operations only write a
body: the response is sent with status 200 and the recorded label is `0`. -/
theorem prometheusMiddleware_implicit_status_label_witness :
    writeHeaderCodes [WriterCall.Write "[]".toList] = [] ∧
    (responseStatus (prometheusMiddleware (scriptHandler (fun _ => [WriterCall.Write "[]".toList]))
        serverWriter ⟨MethodGet, ⟨"/repos/".toList⟩, []⟩ (World.fresh [])).wire = 200 ∧
      (prometheusMiddleware (scriptHandler (fun _ => [WriterCall.Write "[]".toList]))
        serverWriter ⟨MethodGet, ⟨"/repos/".toList⟩, []⟩
        (World.fresh [])).httpDuration.getLast?.map Sample.status = some "0".toList ∧
      (prometheusMiddleware (scriptHandler (fun _ => [WriterCall.Write "[]".toList]))
        serverWriter ⟨MethodGet, ⟨"/repos/".toList⟩, []⟩
        (World.fresh [])).httpDuration.getLast?.map Sample.status ≠ some "200".toList) ∧
    CreateServer probeClient [] serverWriter ⟨MethodGet, ⟨"/repos/".toList⟩, []⟩ (World.fresh []) =
      { wire := [WriterCall.HeaderSet "content-type".toList "application/json".toList,
                 WriterCall.Write "ListRepositories".toList],
        statusCode := 0,
        httpDuration := [⟨"GET".toList, "/repos".toList, "0".toList⟩] } :=
  ⟨rfl,
    prometheusMiddleware_implicit_status_label (fun _ => [WriterCall.Write "[]".toList])
      ⟨MethodGet, ⟨"/repos/".toList⟩, []⟩ [] rfl,
    by decide⟩

/-- The codes the pipeline passes to `WriteHeader` are valid when those of
the selected operation are. -/
theorem pipelineCalls_codes_valid (script : Op → Request → List WriterCall)
    (authToken : GoString) (r : Request)
    (hvalid : ∀ op : Op, selectOp routeCases r.Method r.URL.Path = some op →
      ∀ code ∈ writeHeaderCodes (script op r), validStatusCode code = true) :
    ∀ code ∈ writeHeaderCodes (pipelineCalls script authToken r),
      validStatusCode code = true := by
  unfold pipelineCalls
  by_cases hadm : authToken = [] ∨
      r.Header.Get "Authorization".toList = "Bearer ".toList ++ authToken
  · rw [if_pos hadm]
    cases hsel : selectOp routeCases r.Method r.URL.Path with
    | none =>
      intro code hcode
      simp only [writeHeaderCodes, List.mem_singleton] at hcode
      subst hcode
      decide
    | some op =>
      intro code hcode
      exact hvalid op hsel code hcode
  · rw [if_neg hadm]
    intro code hcode
    simp only [writeHeaderCodes, List.mem_singleton] at hcode
    subst hcode
    decide

/-- C8: for every request passed through the pipeline of `CreateServer`,
`prometheusMiddleware(CheckAuthorised(RegistryServer))`, with a client whose
operations act through the writer they are handed and return, passing to
`WriteHeader` only codes the writer of net/http accepts (100 to 999; on any
other code it panics and `Observe` is never reached), no call of the run
panics and exactly one sample is added to `httpDuration`. Its method label is
the request method; its path label, for a path with a leading slash, is the
slash followed by the first component; its status label is the decimal of the
code last passed to `WriteHeader` by the inner layers, whenever one was
passed: `403` for a request the gate rejects and `404` for an admitted
request that matches no route; for an admitted request that selects an
operation the inner calls are the content type followed by the calls of that
operation. -/
theorem createServer_records_one_sample (script : Op → Request → List WriterCall)
    (authToken : GoString) (r : Request) (s : World)
    (hvalid : ∀ op : Op, selectOp routeCases r.Method r.URL.Path = some op →
      ∀ code ∈ writeHeaderCodes (script op r), validStatusCode code = true) :
    ∃ (calls : List WriterCall) (sample : Sample),
      (CreateServer (scriptClient script) authToken serverWriter r s).wire = s.wire ++ calls ∧
      (∀ code ∈ writeHeaderCodes calls, validStatusCode code = true) ∧
      (CreateServer (scriptClient script) authToken serverWriter r s).httpDuration =
        s.httpDuration ++ [sample] ∧
      sample.method = r.Method ∧
      (∀ q : GoString, r.URL.Path = '/' :: q →
        sample.path = '/' :: q.takeWhile (fun c => decide (c ≠ '/'))) ∧
      (∀ code : Int, (writeHeaderCodes calls).getLast? = some code →
        sample.status = Sprintf_d code) ∧
      (¬ (authToken = [] ∨
          r.Header.Get "Authorization".toList = "Bearer ".toList ++ authToken) →
        responseStatus calls = 403 ∧ sample.status = "403".toList) ∧
      ((authToken = [] ∨
          r.Header.Get "Authorization".toList = "Bearer ".toList ++ authToken) →
        (∀ c ∈ routeCases, c.matches r.Method r.URL.Path = false) →
        responseStatus calls = 404 ∧ sample.status = "404".toList) ∧
      ((authToken = [] ∨
          r.Header.Get "Authorization".toList = "Bearer ".toList ++ authToken) →
        ∀ op : Op, selectOp routeCases r.Method r.URL.Path = some op →
        calls = WriterCall.HeaderSet "content-type".toList "application/json".toList ::
          script op r) := by
  refine ⟨pipelineCalls script authToken r,
    ⟨r.Method,
      if hl : (Split r.URL.Path '/').length > 1
        then "/".toList ++ (Split r.URL.Path '/').get ⟨1, hl⟩ else "/".toList,
      Sprintf_d ((writeHeaderCodes (pipelineCalls script authToken r)).getLast?.getD 0)⟩,
    ?_, pipelineCalls_codes_valid script authToken r hvalid, ?_, rfl, ?_, ?_, ?_, ?_, ?_⟩
  · rw [createServer_eq]
  · rw [createServer_eq]
  · intro q hq
    show (if hl : (Split r.URL.Path '/').length > 1
      then "/".toList ++ (Split r.URL.Path '/').get ⟨1, hl⟩ else "/".toList) = _
    rw [hq]
    exact pathLabel_of_slash q
  · intro code hcode
    show Sprintf_d ((writeHeaderCodes (pipelineCalls script authToken r)).getLast?.getD 0) = _
    rw [hcode]
    rfl
  · intro hrej
    have hc : pipelineCalls script authToken r =
        [WriterCall.WriteHeader 403,
          WriterCall.Write "\x7b\"error\": \"not authorised\"\x7d\n".toList] := by
      unfold pipelineCalls
      rw [if_neg hrej]
    refine ⟨by rw [hc]; rfl, ?_⟩
    show Sprintf_d ((writeHeaderCodes (pipelineCalls script authToken r)).getLast?.getD 0) = _
    rw [hc]
    decide
  · intro hadm hun
    have hsel : selectOp routeCases r.Method r.URL.Path = none :=
      (selectOp_eq_none_iff _ _ _).mpr hun
    have hc : pipelineCalls script authToken r =
        [WriterCall.HeaderSet "content-type".toList "application/json".toList,
          WriterCall.WriteHeader 404, WriterCall.Write "null\n".toList] := by
      unfold pipelineCalls
      rw [if_pos hadm, hsel]
    refine ⟨by rw [hc]; rfl, ?_⟩
    show Sprintf_d ((writeHeaderCodes (pipelineCalls script authToken r)).getLast?.getD 0) = _
    rw [hc]
    decide
  · intro hadm op hsel
    unfold pipelineCalls
    rw [if_pos hadm, hsel]

/-- C8 at work: the operations of the client answer 200 and then 500, both
codes the writer accepts. With the token `secret`, `GET /repo/foo` without
header adds the one sample (GET, /repo, 403); `GET /nothing` with the right
header adds (GET, /nothing, 404); `DELETE /repo/foo` with the right header
adds (DELETE, /repo, 500). -/
theorem createServer_records_one_sample_witness :
    (∀ op : Op, selectOp routeCases MethodDelete "/repo/foo".toList = some op →
      ∀ code ∈ writeHeaderCodes [WriterCall.WriteHeader 200, WriterCall.WriteHeader 500],
        validStatusCode code = true) ∧
    (∃ (calls : List WriterCall) (sample : Sample),
      (CreateServer (scriptClient (fun _ _ => [WriterCall.WriteHeader 200,
          WriterCall.WriteHeader 500])) "secret".toList serverWriter
          ⟨MethodDelete, ⟨"/repo/foo".toList⟩,
            [("Authorization".toList, ["Bearer secret".toList])]⟩ (World.fresh [])).wire
        = (World.fresh []).wire ++ calls ∧
      (∀ code ∈ writeHeaderCodes calls, validStatusCode code = true) ∧
      (CreateServer (scriptClient (fun _ _ => [WriterCall.WriteHeader 200,
          WriterCall.WriteHeader 500])) "secret".toList serverWriter
          ⟨MethodDelete, ⟨"/repo/foo".toList⟩,
            [("Authorization".toList, ["Bearer secret".toList])]⟩ (World.fresh [])).httpDuration
        = (World.fresh []).httpDuration ++ [sample] ∧
      sample.method = MethodDelete ∧
      (∀ code : Int, (writeHeaderCodes calls).getLast? = some code →
        sample.status = Sprintf_d code)) ∧
    (CreateServer (scriptClient (fun _ _ => [WriterCall.WriteHeader 200,
        WriterCall.WriteHeader 500])) "secret".toList serverWriter
        ⟨MethodGet, ⟨"/repo/foo".toList⟩, []⟩ (World.fresh [])).httpDuration
      = [⟨"GET".toList, "/repo".toList, "403".toList⟩] ∧
    (CreateServer (scriptClient (fun _ _ => [WriterCall.WriteHeader 200,
        WriterCall.WriteHeader 500])) "secret".toList serverWriter
        ⟨MethodGet, ⟨"/nothing".toList⟩, [("Authorization".toList, ["Bearer secret".toList])]⟩
        (World.fresh [])).httpDuration
      = [⟨"GET".toList, "/nothing".toList, "404".toList⟩] ∧
    (CreateServer (scriptClient (fun _ _ => [WriterCall.WriteHeader 200,
        WriterCall.WriteHeader 500])) "secret".toList serverWriter
        ⟨MethodDelete, ⟨"/repo/foo".toList⟩, [("Authorization".toList, ["Bearer secret".toList])]⟩
        (World.fresh [])).httpDuration
      = [⟨"DELETE".toList, "/repo".toList, "500".toList⟩] :=
  ⟨fun _ _ => by decide,
    (createServer_records_one_sample (fun _ _ => [WriterCall.WriteHeader 200,
        WriterCall.WriteHeader 500]) "secret".toList
        ⟨MethodDelete, ⟨"/repo/foo".toList⟩,
          [("Authorization".toList, ["Bearer secret".toList])]⟩ (World.fresh [])
        (fun _ _ =>
          show ∀ code ∈ writeHeaderCodes [WriterCall.WriteHeader 200,
            WriterCall.WriteHeader 500], validStatusCode code = true from by decide)).elim
      (fun calls hc => hc.elim (fun sample hs =>
        ⟨calls, sample, hs.1, hs.2.1, hs.2.2.1, hs.2.2.2.1, hs.2.2.2.2.2.1⟩)),
    by decide, by decide, by decide⟩

/-- C9: the path label computed by `prometheusMiddleware` is the top-level
path segment. For a path that is a slash followed by `q`, the label of the
sample is the slash followed by the characters of `q` before its first slash
(all of `q` when it has none); so `/repo/foo` gives `/repo`, and the path `/`
gives `/`. -/
theorem prometheusMiddleware_path_label (h : Handler) (w : ResponseWriter) (r : Request)
    (s : World) :
    (∀ q : GoString, r.URL.Path = '/' :: q →
      (prometheusMiddleware h w r s).httpDuration.getLast?.map Sample.path =
        some ('/' :: q.takeWhile (fun c => decide (c ≠ '/')))) ∧
    (r.URL.Path = "/repo/foo".toList →
      (prometheusMiddleware h w r s).httpDuration.getLast?.map Sample.path =
        some "/repo".toList) ∧
    (r.URL.Path = "/".toList →
      (prometheusMiddleware h w r s).httpDuration.getLast?.map Sample.path =
        some "/".toList) := by
  have hgen : ∀ q : GoString, r.URL.Path = '/' :: q →
      (prometheusMiddleware h w r s).httpDuration.getLast?.map Sample.path =
        some ('/' :: q.takeWhile (fun c => decide (c ≠ '/'))) := by
    intro q hq
    rw [prometheusMiddleware_eq]
    simp only []
    rw [getLast?_append_singleton, Option.map_some', hq]
    exact congrArg some (pathLabel_of_slash q)
  refine ⟨hgen, fun hp => ?_, fun hp => ?_⟩
  · rw [hgen "repo/foo".toList hp]
    decide
  · rw [hgen [] hp]
    rfl

/-- C9 at work: the label recorded for `/image/foo:v1` is `/image`. -/
theorem prometheusMiddleware_path_label_witness :
    (prometheusMiddleware NotFound serverWriter ⟨MethodGet, ⟨'/' :: "image/foo:v1".toList⟩, []⟩
        (World.fresh [])).httpDuration.getLast?.map Sample.path =
      some ('/' :: "image/foo:v1".toList.takeWhile (fun c => decide (c ≠ '/'))) ∧
    '/' :: "image/foo:v1".toList.takeWhile (fun c => decide (c ≠ '/')) = "/image".toList :=
  ⟨(prometheusMiddleware_path_label NotFound serverWriter
      ⟨MethodGet, ⟨'/' :: "image/foo:v1".toList⟩, []⟩ (World.fresh [])).1 _ rfl,
    by decide⟩

/-! ## Route uniqueness -/

/-- At most one of the six cases holds for a method and a path. -/
theorem routeCases_filter_length_le_one (m p : GoString) :
    (routeCases.filter (fun c => c.matches m p)).length ≤ 1 := by
  have d1 := listReposRe_repoRe_disjoint p
  have d2 := listReposRe_imageRe_disjoint p
  have d3 := repoRe_imageRe_disjoint p
  have d4 := repoRe_tokenRe_disjoint p
  unfold routeCases
  simp only [List.filter, RouteCase.matches]
  by_cases hg : m = MethodGet <;> by_cases hp : m = MethodPost <;>
    by_cases hd : m = MethodDelete <;>
    cases ha : listReposRe.MatchString p <;> cases hb : repoRe.MatchString p <;>
    cases hc : imageRe.MatchString p <;> cases ht : tokenRe.MatchString p <;>
    simp_all [methodGet_ne_methodPost, methodGet_ne_methodDelete,
      methodPost_ne_methodDelete, methodGet_ne_methodPost.symm, methodGet_ne_methodDelete.symm,
      methodPost_ne_methodDelete.symm]

/-- When at most one element of a list satisfies a test, the first element
that satisfies it is the same in every rearrangement of the list. -/
theorem find?_eq_of_perm {α : Type} (q : α → Bool) (l1 l2 : List α) (hperm : l1.Perm l2)
    (hle : (l2.filter q).length ≤ 1) : l1.find? q = l2.find? q := by
  have hf : (l1.filter q).Perm (l2.filter q) := hperm.filter q
  rw [← List.filter_head? q l1, ← List.filter_head? q l2]
  cases h2 : l2.filter q with
  | nil =>
    rw [h2] at hf
    rw [hf.eq_nil]
  | cons a rest =>
    cases rest with
    | nil =>
      rw [h2] at hf
      rw [List.perm_singleton.mp hf]
    | cons b rest2 =>
      rw [h2] at hle
      simp at hle

/-- C10: route uniqueness. For every method and path at most one of the six
(method, pattern) cases of the switch of `RegistryServer.ServeHTTP` holds;
hence a switch over any permutation of the six cases selects the same
operation, and dispatches exactly as `RegistryServer.ServeHTTP` does. -/
theorem route_cases_unique :
    (∀ m p : GoString, (routeCases.filter (fun c => c.matches m p)).length ≤ 1) ∧
    (∀ cases : List RouteCase, cases.Perm routeCases →
      ∀ m p : GoString, selectOp cases m p = selectOp routeCases m p) ∧
    (∀ cases : List RouteCase, cases.Perm routeCases →
      ∀ (h : RegistryServer) (w : ResponseWriter) (r : Request) (s : World),
        serveCases cases h w r s = h.ServeHTTP w r s) := by
  have hsel : ∀ cases : List RouteCase, cases.Perm routeCases →
      ∀ m p : GoString, selectOp cases m p = selectOp routeCases m p := by
    intro cases hperm m p
    unfold selectOp
    rw [find?_eq_of_perm _ cases routeCases hperm (routeCases_filter_length_le_one m p)]
  refine ⟨routeCases_filter_length_le_one, hsel, ?_⟩
  intro cases hperm h w r s
  rw [serveHTTP_eq_serveCases]
  unfold serveCases
  rw [hsel cases hperm]

/-- C10 at work: with the six cases in reverse order, `POST /repo/x` still
selects CreateRepository and `POST /token/x` still selects GetToken. -/
theorem route_cases_unique_witness :
    selectOp routeCases.reverse MethodPost "/repo/x".toList
      = selectOp routeCases MethodPost "/repo/x".toList ∧
    selectOp routeCases.reverse MethodPost "/repo/x".toList = some Op.CreateRepository ∧
    selectOp routeCases.reverse MethodPost "/token/x".toList = some Op.GetToken :=
  ⟨route_cases_unique.2.1 routeCases.reverse (List.reverse_perm routeCases) _ _,
    by decide, by decide⟩

/-! ## Empty and blank captures -/

/-- No case is selected for a path that none of the four patterns matches. -/
theorem selectOp_none_of_no_pattern (m p : GoString)
    (ha : listReposRe.MatchString p = false) (hb : repoRe.MatchString p = false)
    (hc : imageRe.MatchString p = false) (ht : tokenRe.MatchString p = false) :
    selectOp routeCases m p = none := by
  rw [selectOp_routeCases]
  simp [ha, hb, hc, ht]

/-- No case is selected for a path that only the token pattern matches when
the method is not POST. -/
theorem selectOp_none_of_not_post (m p : GoString) (hm : m ≠ MethodPost)
    (ha : listReposRe.MatchString p = false) (hb : repoRe.MatchString p = false)
    (hc : imageRe.MatchString p = false) :
    selectOp routeCases m p = none := by
  rw [selectOp_routeCases]
  simp [ha, hb, hc, hm]

/-- The response of `NotFound` after the content type, on a fresh response of
the server. -/
theorem notFound_response (r : Request) (m : List Sample) :
    responseStatus (NotFound serverWriter r
        (serverWriter.HeaderSet "content-type".toList "application/json".toList
          (World.fresh m))).wire = 404 ∧
    responseBody (NotFound serverWriter r
        (serverWriter.HeaderSet "content-type".toList "application/json".toList
          (World.fresh m))).wire = "null\n".toList :=
  ⟨rfl, rfl⟩

/-- C11 fails as stated: `POST /token/`, the token prefix followed by an empty
rest, is matched by the token pattern and dispatched to the get-token
operation; it is not answered 404. -/
theorem post_token_slash_is_dispatched :
    tokenRe.MatchString "/token/".toList = true ∧
    selectOp routeCases MethodPost "/token/".toList = some Op.GetToken ∧
    (RegistryServer.ServeHTTP ⟨probeClient⟩ serverWriter
        ⟨MethodPost, ⟨"/token/".toList⟩, []⟩ (World.fresh [])).wire =
      [WriterCall.HeaderSet "content-type".toList "application/json".toList,
        WriterCall.Write "GetToken".toList] ∧
    responseStatus (RegistryServer.ServeHTTP ⟨probeClient⟩ serverWriter
        ⟨MethodPost, ⟨"/token/".toList⟩, []⟩ (World.fresh [])).wire ≠ 404 ∧
    responseBody (RegistryServer.ServeHTTP ⟨probeClient⟩ serverWriter
        ⟨MethodPost, ⟨"/token/".toList⟩, []⟩ (World.fresh [])).wire ≠ "null\n".toList := by
  decide

/-- C11, amended: the repo and image patterns do not match their prefix
followed by an empty rest: for every method the paths `/repo/` and `/image/`
select no operation of the client and the dispatcher answers 404 with body
`null` and a newline. The token pattern does match `/token/`: that path is
answered 404 for every method but POST, and `POST /token/` is dispatched to the
get-token operation. -/
theorem empty_rest_dispatch (h : RegistryServer) (r : Request) :
    ((r.URL.Path = "/repo/".toList ∨ r.URL.Path = "/image/".toList ∨
        (r.URL.Path = "/token/".toList ∧ r.Method ≠ MethodPost)) →
      selectOp routeCases r.Method r.URL.Path = none ∧
      (∀ (w : ResponseWriter) (s : World), h.ServeHTTP w r s =
        NotFound w r (w.HeaderSet "content-type".toList "application/json".toList s)) ∧
      (∀ m : List Sample,
        responseStatus (h.ServeHTTP serverWriter r (World.fresh m)).wire = 404 ∧
        responseBody (h.ServeHTTP serverWriter r (World.fresh m)).wire = "null\n".toList)) ∧
    (r.URL.Path = "/token/".toList → r.Method = MethodPost →
      selectOp routeCases r.Method r.URL.Path = some Op.GetToken ∧
      (∀ (w : ResponseWriter) (s : World), h.ServeHTTP w r s =
        h.Client.GetToken w r
          (w.HeaderSet "content-type".toList "application/json".toList s))) := by
  constructor
  · intro hp
    have hsel : selectOp routeCases r.Method r.URL.Path = none := by
      rcases hp with hp | hp | ⟨hp, hm⟩
      · rw [hp]
        exact selectOp_none_of_no_pattern _ _ (by decide) (by decide) (by decide) (by decide)
      · rw [hp]
        exact selectOp_none_of_no_pattern _ _ (by decide) (by decide) (by decide) (by decide)
      · rw [hp]
        exact selectOp_none_of_not_post _ _ hm (by decide) (by decide) (by decide)
    refine ⟨hsel, fun w s => serveHTTP_of_selectOp_none h w r s hsel, fun m => ?_⟩
    rw [serveHTTP_of_selectOp_none h serverWriter r (World.fresh m) hsel]
    exact notFound_response r m
  · intro hp hm
    have hsel : selectOp routeCases r.Method r.URL.Path = some Op.GetToken := by
      rw [hp, hm]
      decide
    exact ⟨hsel, fun w s => serveHTTP_of_selectOp_some h w r s _ hsel⟩

/-- C11 amended, at work: `DELETE /image/` and `GET /token/` are answered
404 with body `null`. -/
theorem empty_rest_dispatch_witness :
    (responseStatus (RegistryServer.ServeHTTP ⟨probeClient⟩ serverWriter
        ⟨MethodDelete, ⟨"/image/".toList⟩, []⟩ (World.fresh [])).wire = 404 ∧
      responseBody (RegistryServer.ServeHTTP ⟨probeClient⟩ serverWriter
        ⟨MethodDelete, ⟨"/image/".toList⟩, []⟩ (World.fresh [])).wire = "null\n".toList) ∧
    (responseStatus (RegistryServer.ServeHTTP ⟨probeClient⟩ serverWriter
        ⟨MethodGet, ⟨"/token/".toList⟩, []⟩ (World.fresh [])).wire = 404 ∧
      responseBody (RegistryServer.ServeHTTP ⟨probeClient⟩ serverWriter
        ⟨MethodGet, ⟨"/token/".toList⟩, []⟩ (World.fresh [])).wire = "null\n".toList) :=
  ⟨((empty_rest_dispatch ⟨probeClient⟩ ⟨MethodDelete, ⟨"/image/".toList⟩, []⟩).1
      (Or.inr (Or.inl rfl))).2.2 [],
    ((empty_rest_dispatch ⟨probeClient⟩ ⟨MethodGet, ⟨"/token/".toList⟩, []⟩).1
      (Or.inr (Or.inr ⟨rfl, by decide⟩))).2.2 []⟩

/-- C12 fails as stated: the rest `a b` is non-empty and contains a
non-whitespace character, yet `/repo/a b` does not match the repo pattern nor
`/image/a b` the image pattern, and GET on either selects no operation. -/
theorem rest_with_blank_not_matched :
    "a b".toList ≠ [] ∧ (∃ c ∈ "a b".toList, isSpace c = false) ∧
    repoRe.MatchString ("/repo/".toList ++ "a b".toList) = false ∧
    imageRe.MatchString ("/image/".toList ++ "a b".toList) = false ∧
    selectOp routeCases MethodGet ("/repo/".toList ++ "a b".toList) = none ∧
    selectOp routeCases MethodPost ("/repo/".toList ++ "a b".toList) = none ∧
    selectOp routeCases MethodDelete ("/repo/".toList ++ "a b".toList) = none ∧
    selectOp routeCases MethodGet ("/image/".toList ++ "a b".toList) = none := by
  decide

/-- C12, amended: the rest required by the prefix-capture patterns is exactly
a non-empty string without any whitespace character. `/repo/` followed by
`rest` matches the repo pattern if and only if `rest` is such a string, and
likewise `/image/` followed by `rest` and the image pattern; for such a rest
GET, POST and DELETE on `/repo/rest` select GetRepository, CreateRepository and
DeleteRepository, and GET on `/image/rest` selects GetImage. -/
theorem rest_requirement (rest : GoString) :
    (repoRe.MatchString ("/repo/".toList ++ rest) = true ↔
      rest ≠ [] ∧ ∀ c ∈ rest, isSpace c = false) ∧
    (imageRe.MatchString ("/image/".toList ++ rest) = true ↔
      rest ≠ [] ∧ ∀ c ∈ rest, isSpace c = false) ∧
    (rest ≠ [] → (∀ c ∈ rest, isSpace c = false) →
      selectOp routeCases MethodGet ("/repo/".toList ++ rest) = some Op.GetRepository ∧
      selectOp routeCases MethodPost ("/repo/".toList ++ rest) = some Op.CreateRepository ∧
      selectOp routeCases MethodDelete ("/repo/".toList ++ rest) = some Op.DeleteRepository ∧
      selectOp routeCases MethodGet ("/image/".toList ++ rest) = some Op.GetImage) := by
  have hrepo : repoRe.MatchString ("/repo/".toList ++ rest) = true ↔
      rest ≠ [] ∧ ∀ c ∈ rest, isSpace c = false := by
    rw [repoRe_match]
    constructor
    · rintro ⟨rest2, heq, h⟩
      rw [List.append_cancel_left heq]
      exact h
    · intro h
      exact ⟨rest, rfl, h⟩
  have himage : imageRe.MatchString ("/image/".toList ++ rest) = true ↔
      rest ≠ [] ∧ ∀ c ∈ rest, isSpace c = false := by
    rw [imageRe_match]
    constructor
    · rintro ⟨rest2, heq, h⟩
      rw [List.append_cancel_left heq]
      exact h
    · intro h
      exact ⟨rest, rfl, h⟩
  refine ⟨hrepo, himage, fun hne hns => ⟨?_, ?_, ?_, ?_⟩⟩
  · exact selectOp_get_repo _ (hrepo.mpr ⟨hne, hns⟩)
  · exact selectOp_post_repo _ (hrepo.mpr ⟨hne, hns⟩)
  · exact selectOp_delete_repo _ (hrepo.mpr ⟨hne, hns⟩)
  · exact selectOp_get_image _ (himage.mpr ⟨hne, hns⟩)

/-- C12 amended, at work: the rest `org/img` is matched, the rest `a b`
is not. -/
theorem rest_requirement_witness :
    selectOp routeCases MethodGet ("/repo/".toList ++ "org/img".toList)
      = some Op.GetRepository ∧
    ¬ ("a b".toList ≠ [] ∧ ∀ c ∈ "a b".toList, isSpace c = false) ∧
    (repoRe.MatchString ("/repo/".toList ++ "a b".toList) = true ↔
      "a b".toList ≠ [] ∧ ∀ c ∈ "a b".toList, isSpace c = false) :=
  ⟨((rest_requirement "org/img".toList).2.2 (by decide) (by decide)).1,
    by decide,
    (rest_requirement "a b".toList).1⟩

/-! ## The content type of the responses -/

/-- C13, the code on all three outcomes of `CheckAuthorised(RegistryServer)`.
For a request the gate rejects the only calls on the writer are the
`WriteHeader(403)` and the `Write` of `NotAuthorised`: the header block goes
out with no content type set, not with `application/json`. For an admitted
request the dispatcher sets the content type first: a 404 goes out with
`application/json`, and a selected operation runs on the world in which the
content type is already set. -/
theorem pipeline_content_type (client : IRegistryClient) (authToken : GoString)
    (r : Request) (m : List Sample) :
    (¬ (authToken = [] ∨
        r.Header.Get "Authorization".toList = "Bearer ".toList ++ authToken) →
      (CheckAuthorised (RegistryServer.ServeHTTP ⟨client⟩) authToken serverWriter r
          (World.fresh m)).wire =
        [WriterCall.WriteHeader 403,
          WriterCall.Write "\x7b\"error\": \"not authorised\"\x7d\n".toList] ∧
      responseHeader "content-type".toList
        (CheckAuthorised (RegistryServer.ServeHTTP ⟨client⟩) authToken serverWriter r
          (World.fresh m)).wire = none ∧
      responseHeader "content-type".toList
        (CheckAuthorised (RegistryServer.ServeHTTP ⟨client⟩) authToken serverWriter r
          (World.fresh m)).wire ≠ some "application/json".toList) ∧
    ((authToken = [] ∨
        r.Header.Get "Authorization".toList = "Bearer ".toList ++ authToken) →
      (∀ c ∈ routeCases, c.matches r.Method r.URL.Path = false) →
      responseStatus
        (CheckAuthorised (RegistryServer.ServeHTTP ⟨client⟩) authToken serverWriter r
          (World.fresh m)).wire = 404 ∧
      responseHeader "content-type".toList
        (CheckAuthorised (RegistryServer.ServeHTTP ⟨client⟩) authToken serverWriter r
          (World.fresh m)).wire = some "application/json".toList) ∧
    ((authToken = [] ∨
        r.Header.Get "Authorization".toList = "Bearer ".toList ++ authToken) →
      ∀ op : Op, selectOp routeCases r.Method r.URL.Path = some op →
      ∀ (w : ResponseWriter) (s : World),
        CheckAuthorised (RegistryServer.ServeHTTP ⟨client⟩) authToken w r s =
          client.method op w r
            (w.HeaderSet "content-type".toList "application/json".toList s)) := by
  refine ⟨fun hrej => ?_, fun hadm hun => ?_, fun hadm op hsel w s => ?_⟩
  · have heq : CheckAuthorised (RegistryServer.ServeHTTP ⟨client⟩) authToken serverWriter r
        (World.fresh m) = NotAuthorised serverWriter r (World.fresh m) := by
      rw [checkAuthorised_eq, if_neg hrej]
    rw [heq]
    refine ⟨rfl, rfl, ?_⟩
    intro hc
    cases hc
  · have hsel : selectOp routeCases r.Method r.URL.Path = none :=
      (selectOp_eq_none_iff _ _ _).mpr hun
    have heq : CheckAuthorised (RegistryServer.ServeHTTP ⟨client⟩) authToken serverWriter r
        (World.fresh m) = NotFound serverWriter r
          (serverWriter.HeaderSet "content-type".toList "application/json".toList
            (World.fresh m)) := by
      rw [checkAuthorised_eq, if_pos hadm]
      exact serveHTTP_of_selectOp_none ⟨client⟩ serverWriter r _ hsel
    rw [heq]
    exact ⟨rfl, rfl⟩
  · rw [checkAuthorised_eq, if_pos hadm]
    exact serveHTTP_of_selectOp_some ⟨client⟩ w r s op hsel

/-- C13 at a failing input: the token is `secret`, the request `GET /repos/`
has no Authorization header; the response is the 403 with the JSON body and no
content type has been set. -/
theorem pipeline_content_type_witness :
    (CheckAuthorised (RegistryServer.ServeHTTP ⟨probeClient⟩) "secret".toList serverWriter
        ⟨MethodGet, ⟨"/repos/".toList⟩, []⟩ (World.fresh [])).wire =
      [WriterCall.WriteHeader 403,
        WriterCall.Write "\x7b\"error\": \"not authorised\"\x7d\n".toList] ∧
    responseHeader "content-type".toList
      (CheckAuthorised (RegistryServer.ServeHTTP ⟨probeClient⟩) "secret".toList serverWriter
        ⟨MethodGet, ⟨"/repos/".toList⟩, []⟩ (World.fresh [])).wire = none ∧
    responseHeader "content-type".toList
      (CheckAuthorised (RegistryServer.ServeHTTP ⟨probeClient⟩) "secret".toList serverWriter
        ⟨MethodGet, ⟨"/repos/".toList⟩, []⟩ (World.fresh [])).wire
      ≠ some "application/json".toList :=
  (pipeline_content_type probeClient "secret".toList
    ⟨MethodGet, ⟨"/repos/".toList⟩, []⟩ []).1 (by decide)

/-! ## The 500 handler -/

/-- The loop over the flag values replaces the bytes exactly when the flag is
one of the values. -/
theorem rangeReturnError_eq (return_error marshalled : GoString) (vs : List GoString)
    (jsonBytes : GoString) :
    rangeReturnError return_error marshalled vs jsonBytes =
      if return_error ∈ vs then marshalled else jsonBytes := by
  induction vs with
  | nil => simp [rangeReturnError]
  | cons v rest ih =>
    unfold rangeReturnError
    by_cases hv : return_error = v
    · simp [hv]
    · rw [if_neg hv, ih]
      simp [hv]

/-- C14: `InternalServerError` writes status 500 for every error and every
value of the flag `RETURN_ERROR_DETAILS`. When the lower-cased flag is none of
`true`, `1`, `yes`, the body is the fixed text of the source, which is the JSON
object with the one field `error` of value `internal server error`, followed
by a newline, whatever the error (so is the outcome for an unset or empty
flag); when it is one of the three, and only then, the body is what
`json.Marshal` returns for the object whose field `error` is the message of
the error, followed by a newline. -/
theorem internalServerError_response (rt : Runtime) (e : GoString) (w : ResponseWriter)
    (r : Request) (s : World) :
    (ToLower rt.unicodeLower (rt.Getenv "RETURN_ERROR_DETAILS".toList) ∉
        ["true".toList, "1".toList, "yes".toList] →
      InternalServerError rt e w r s =
        w.Write "\x7b\"error\": \"internal server error\"\x7d\n".toList
          (w.WriteHeader 500 s)) ∧
    (ToLower rt.unicodeLower (rt.Getenv "RETURN_ERROR_DETAILS".toList) ∈
        ["true".toList, "1".toList, "yes".toList] →
      InternalServerError rt e w r s =
        w.Write (rt.Marshal [("error".toList, e)] ++ "\n".toList) (w.WriteHeader 500 s)) ∧
    (∀ m : List Sample,
      responseStatus (InternalServerError rt e serverWriter r (World.fresh m)).wire = 500) ∧
    jsonErrorField "\x7b\"error\": \"internal server error\"\x7d\n".toList =
      some "internal server error".toList ∧
    jsonErrorField "\x7b\"error\":\"internal server error\"\x7d".toList =
      some "internal server error".toList ∧
    (rt.Getenv "RETURN_ERROR_DETAILS".toList = [] →
      ToLower rt.unicodeLower (rt.Getenv "RETURN_ERROR_DETAILS".toList) ∉
        ["true".toList, "1".toList, "yes".toList]) := by
  have hrun : InternalServerError rt e w r s =
      w.Write ((if ToLower rt.unicodeLower (rt.Getenv "RETURN_ERROR_DETAILS".toList) ∈
          ["true".toList, "1".toList, "yes".toList]
        then rt.Marshal [("error".toList, e)]
        else "\x7b\"error\": \"internal server error\"\x7d".toList) ++ ['\n'])
        (w.WriteHeader 500 s) := by
    unfold InternalServerError
    simp only [rangeReturnError_eq]
    rfl
  refine ⟨fun hno => ?_, fun hyes => ?_, fun m => ?_, by decide, by decide, fun hv => ?_⟩
  · rw [hrun, if_neg hno]
    rfl
  · rw [hrun, if_pos hyes]
    rfl
  · rfl
  · rw [hv]
    show ([] : GoString) ∉ ["true".toList, "1".toList, "yes".toList]
    decide

/-- C14 at work: with the flag `YES` the body carries the message `boom`;
with the flag `no`, and with the flag unset, it is the fixed text. -/
theorem internalServerError_response_witness :
    (InternalServerError (plainRuntime "YES".toList) "boom".toList serverWriter
        ⟨MethodGet, ⟨"/health".toList⟩, []⟩ (World.fresh []) =
      serverWriter.Write
        ((plainRuntime "YES".toList).Marshal [("error".toList, "boom".toList)] ++ "\n".toList)
        (serverWriter.WriteHeader 500 (World.fresh []))) ∧
    (InternalServerError (plainRuntime "YES".toList) "boom".toList serverWriter
        ⟨MethodGet, ⟨"/health".toList⟩, []⟩ (World.fresh [])).wire =
      [WriterCall.WriteHeader 500, WriterCall.Write "\x7b\"error\":\"boom\"\x7d\n".toList] ∧
    (InternalServerError (plainRuntime "no".toList) "boom".toList serverWriter
        ⟨MethodGet, ⟨"/health".toList⟩, []⟩ (World.fresh []) =
      serverWriter.Write "\x7b\"error\": \"internal server error\"\x7d\n".toList
        (serverWriter.WriteHeader 500 (World.fresh []))) ∧
    (InternalServerError (plainRuntime []) "boom".toList serverWriter
        ⟨MethodGet, ⟨"/health".toList⟩, []⟩ (World.fresh []) =
      serverWriter.Write "\x7b\"error\": \"internal server error\"\x7d\n".toList
        (serverWriter.WriteHeader 500 (World.fresh []))) :=
  ⟨(internalServerError_response (plainRuntime "YES".toList) "boom".toList serverWriter
      ⟨MethodGet, ⟨"/health".toList⟩, []⟩ (World.fresh [])).2.1 (by decide),
    by decide,
    (internalServerError_response (plainRuntime "no".toList) "boom".toList serverWriter
      ⟨MethodGet, ⟨"/health".toList⟩, []⟩ (World.fresh [])).1 (by decide),
    (internalServerError_response (plainRuntime []) "boom".toList serverWriter
      ⟨MethodGet, ⟨"/health".toList⟩, []⟩ (World.fresh [])).1 (by decide)⟩

/-! ## The metrics instrument only observes -/

/-- A script run on the writer of the server itself: every call reaches the
wire and nothing else changes. -/
theorem foldl_performCall_serverWriter (calls : List WriterCall) (s : World) :
    calls.foldl (performCall serverWriter) s = { s with wire := s.wire ++ calls } := by
  induction calls generalizing s with
  | nil => simp
  | cons c cs ih =>
    rw [List.foldl_cons, ih]
    cases c <;> simp [performCall, serverWriter]

/-- C15: `prometheusMiddleware` only observes. For every wrapped handler, seen
as the calls it makes on the writer it is handed, and every request, the calls
that reach the writer of the server when the handler runs inside
`prometheusMiddleware` are the calls that reach it when the handler is invoked
directly, the same status codes, headers and body bytes in the same order; and
`statusRecorder.WriteHeader` passes each status code on unchanged to the
writer it embeds, while `Header` and `Write` are that writer's own. -/
theorem prometheusMiddleware_only_observes (script : Request → List WriterCall)
    (r : Request) (s : World) :
    (prometheusMiddleware (scriptHandler script) serverWriter r s).wire =
      (scriptHandler script serverWriter r s).wire ∧
    (scriptHandler script serverWriter r s).wire = s.wire ++ script r ∧
    (∀ (w : ResponseWriter) (statusCode : Int) (s1 : World),
      (statusRecorder w).WriteHeader statusCode s1 =
        w.WriteHeader statusCode { s1 with statusCode := statusCode }) ∧
    (∀ (statusCode : Int) (s1 : World),
      ((statusRecorder serverWriter).WriteHeader statusCode s1).wire =
        s1.wire ++ [WriterCall.WriteHeader statusCode]) ∧
    (∀ w : ResponseWriter, (statusRecorder w).HeaderSet = w.HeaderSet ∧
      (statusRecorder w).Write = w.Write) := by
  have hdirect : (scriptHandler script serverWriter r s).wire = s.wire ++ script r := by
    unfold scriptHandler
    rw [foldl_performCall_serverWriter]
  refine ⟨?_, hdirect, fun _ _ _ => rfl, fun _ _ => rfl, fun _ => ⟨rfl, rfl⟩⟩
  rw [hdirect, prometheusMiddleware_eq]
  unfold scriptHandler
  rw [foldl_performCall_statusRecorder]

/-- C15 at work: a handler that sets a header, answers 201 and writes a body
puts the same three calls on the wire inside `prometheusMiddleware` as
outside. -/
theorem prometheusMiddleware_only_observes_witness :
    (prometheusMiddleware (scriptHandler (fun _ =>
        [WriterCall.HeaderSet "x-a".toList "b".toList, WriterCall.WriteHeader 201,
          WriterCall.Write "ok".toList])) serverWriter
        ⟨MethodPost, ⟨"/repo/foo".toList⟩, []⟩ (World.fresh [])).wire =
      (scriptHandler (fun _ =>
        [WriterCall.HeaderSet "x-a".toList "b".toList, WriterCall.WriteHeader 201,
          WriterCall.Write "ok".toList]) serverWriter
        ⟨MethodPost, ⟨"/repo/foo".toList⟩, []⟩ (World.fresh [])).wire ∧
    (prometheusMiddleware (scriptHandler (fun _ =>
        [WriterCall.HeaderSet "x-a".toList "b".toList, WriterCall.WriteHeader 201,
          WriterCall.Write "ok".toList])) serverWriter
        ⟨MethodPost, ⟨"/repo/foo".toList⟩, []⟩ (World.fresh [])).wire =
      [WriterCall.HeaderSet "x-a".toList "b".toList, WriterCall.WriteHeader 201,
        WriterCall.Write "ok".toList] :=
  ⟨(prometheusMiddleware_only_observes (fun _ =>
      [WriterCall.HeaderSet "x-a".toList "b".toList, WriterCall.WriteHeader 201,
        WriterCall.Write "ok".toList])
      ⟨MethodPost, ⟨"/repo/foo".toList⟩, []⟩ (World.fresh [])).1,
    by decide⟩

/-! ## The parsers and the routes -/

/-- A string that contains a colon is cut by its last colon. -/
theorem exists_last_colon (x : GoString) (h : ':' ∈ x) :
    ∃ a b : GoString, x = a ++ ':' :: b ∧ ':' ∉ b := by
  induction x with
  | nil => cases h
  | cons c cs ih =>
    by_cases hcs : ':' ∈ cs
    · obtain ⟨a, b, hab, hb⟩ := ih hcs
      exact ⟨c :: a, b, by rw [hab]; rfl, hb⟩
    · rcases List.mem_cons.mp h with hc | hc
      · exact ⟨[], cs, by rw [← hc]; rfl, hcs⟩
      · exact absurd hc hcs

/-- The parser on `/image/` followed by a string without colon. -/
theorem imageGetNameAndTag_no_colon (r : Request) (x : GoString)
    (hp : r.URL.Path = "/image/".toList ++ x) (hx : ':' ∉ x) :
    ImageGetNameAndTag r = Except.ok (x, "latest".toList) := by
  rw [imageGetNameAndTag_on_image_path r x hp, lastIndex_colon_of_not_mem x hx]
  rfl

/-- The parser on `/image/` followed by a string cut at its last colon. -/
theorem imageGetNameAndTag_last_colon (r : Request) (a b : GoString)
    (hp : r.URL.Path = "/image/".toList ++ (a ++ ':' :: b)) (hb : ':' ∉ b) :
    ImageGetNameAndTag r =
      if b = [] then Except.error ("Invalid tag in path: ".toList ++ r.URL.Path)
      else Except.ok (a, b) := by
  rw [imageGetNameAndTag_on_image_path r _ hp, lastIndex_colon_append a b hb]
  have hpos : (a.length : Int) > -1 := by
    have : (0 : Int) ≤ (a.length : Int) := Int.ofNat_nonneg _
    omega
  have hd : (a ++ ':' :: b).drop ((a.length : Int) + 1).toNat = b := by
    have h1 : ((a.length : Int) + 1).toNat = (a ++ [':']).length := by simp
    have h2 : a ++ ':' :: b = (a ++ [':']) ++ b := by simp
    rw [h1, h2]
    exact List.drop_left _ _
  have ht : (a ++ ':' :: b).take ((a.length : Int)).toNat = a := by
    simp
  simp only [if_pos hpos, hd, ht]

/-- The parser fails on a path that does not start with `/image/`. -/
theorem imageGetNameAndTag_not_image_path (r : Request)
    (h : HasPrefix r.URL.Path "/image/".toList = false) :
    ImageGetNameAndTag r = Except.error ("Invalid path: ".toList ++ r.URL.Path) := by
  unfold ImageGetNameAndTag
  simp only [h, Bool.not_false, if_true]

/-- C16: `ImageGetNameAndTag` splits at the last colon of the reference. For
every path `/image/` followed by `X` on which it succeeds, the returned tag is
non-empty and contains no colon; when `X` contains a colon, the name, a colon
and the tag make up `X`; when `X` contains no colon the name is `X`. So
`host:5000/img:v1` gives the name `host:5000/img` and the tag `v1`, while
`host:5000/img` gives the name `host` and the tag `5000/img`. -/
theorem imageGetNameAndTag_last_colon_split (r : Request) :
    (∀ x name tag : GoString, r.URL.Path = "/image/".toList ++ x →
      ImageGetNameAndTag r = Except.ok (name, tag) →
      tag ≠ [] ∧ ':' ∉ tag ∧
      (':' ∈ x → name ++ ":".toList ++ tag = x) ∧
      (':' ∉ x → name = x)) ∧
    ImageGetNameAndTag ⟨MethodGet, ⟨"/image/host:5000/img:v1".toList⟩, []⟩ =
      Except.ok ("host:5000/img".toList, "v1".toList) ∧
    ImageGetNameAndTag ⟨MethodGet, ⟨"/image/host:5000/img".toList⟩, []⟩ =
      Except.ok ("host".toList, "5000/img".toList) := by
  refine ⟨?_, rfl, rfl⟩
  intro x name tag hp hok
  by_cases hx : ':' ∈ x
  · obtain ⟨a, b, hab, hb⟩ := exists_last_colon x hx
    rw [imageGetNameAndTag_last_colon r a b (by rw [hp, hab]) hb] at hok
    by_cases hbe : b = []
    · rw [if_pos hbe] at hok
      cases hok
    · rw [if_neg hbe] at hok
      injection hok with hok
      injection hok with h1 h2
      subst h1; subst h2
      refine ⟨hbe, hb, fun _ => ?_, fun hn => absurd hx hn⟩
      rw [hab]
      simp
  · rw [imageGetNameAndTag_no_colon r x hp hx] at hok
    injection hok with hok
    injection hok with h1 h2
    subst h1; subst h2
    exact ⟨by decide, by decide, fun hc => absurd hc hx, fun _ => rfl⟩

/-- C16 at work: the reference `org/img:1.2` is cut into `org/img` and
`1.2`. -/
theorem imageGetNameAndTag_last_colon_split_witness :
    "1.2".toList ≠ [] ∧ ':' ∉ "1.2".toList ∧
    (':' ∈ "org/img:1.2".toList → "org/img".toList ++ ":".toList ++ "1.2".toList
      = "org/img:1.2".toList) ∧
    (':' ∉ "org/img:1.2".toList → "org/img".toList = "org/img:1.2".toList) :=
  (imageGetNameAndTag_last_colon_split
      ⟨MethodGet, ⟨"/image/".toList ++ "org/img:1.2".toList⟩, []⟩).1
    "org/img:1.2".toList "org/img".toList "1.2".toList rfl rfl

/-- A string with a non-empty end that finishes with a colon has the colon in
that end. -/
theorem colon_mem_of_ends_colon (p rest q : GoString) (h : p ++ rest = q ++ [':'])
    (hne : rest ≠ []) : ':' ∈ rest := by
  rcases List.eq_nil_or_concat rest with hnil | ⟨front, final, hrest⟩
  · exact absurd hnil hne
  · subst hrest
    rw [List.concat_eq_append, ← List.append_assoc] at h
    rw [List.concat_eq_append]
    have hl : [final] = [':'] := List.append_inj_right' h rfl
    injection hl with hf _
    subst hf
    simp

/-- The repo operations are selected by the repo pattern only. -/
theorem repoRe_of_selectOp (m p : GoString) (op : Op)
    (hsel : selectOp routeCases m p = some op)
    (hop : op = Op.GetRepository ∨ op = Op.CreateRepository ∨ op = Op.DeleteRepository) :
    repoRe.MatchString p = true := by
  rw [selectOp_routeCases] at hsel
  split_ifs at hsel with c1 c2 c3 c4 c5 c6
  · injection hsel with hsel; subst hsel; simp at hop
  · exact c2.2
  · injection hsel with hsel; subst hsel; simp at hop
  · exact c4.2
  · exact c5.2
  · injection hsel with hsel; subst hsel; simp at hop

/-- C17: the router and the repository-name parser agree. `RepoGetName`
returns an error if and only if the path does not start with `/repo/`; and for
every path the repo pattern accepts (the pattern behind the routes GET, POST
and DELETE `/repo/rest`, the only one that selects their operations),
`RepoGetName` succeeds with a name that is non-empty, contains no whitespace,
and with `/repo/` before it is the path. -/
theorem repoGetName_agrees_with_route (r : Request) :
    ((∃ e, RepoGetName r = Except.error e) ↔ ¬ ("/repo/".toList <+: r.URL.Path)) ∧
    (repoRe.MatchString r.URL.Path = true →
      ∃ name : GoString, RepoGetName r = Except.ok name ∧ name ≠ [] ∧
        (∀ c ∈ name, isSpace c = false) ∧ "/repo/".toList ++ name = r.URL.Path) ∧
    (∀ op : Op, selectOp routeCases r.Method r.URL.Path = some op →
      (op = Op.GetRepository ∨ op = Op.CreateRepository ∨ op = Op.DeleteRepository) →
      repoRe.MatchString r.URL.Path = true) := by
  refine ⟨?_, ?_, fun op hsel hop => repoRe_of_selectOp _ _ op hsel hop⟩
  · by_cases hp : HasPrefix r.URL.Path "/repo/".toList = true
    · have hok : RepoGetName r = Except.ok (TrimPrefix r.URL.Path "/repo/".toList) := by
        unfold RepoGetName
        simp only [hp, Bool.not_true, Bool.false_eq_true, if_false]
      obtain ⟨t, ht⟩ := (hasPrefix_iff _ _).mp hp
      constructor
      · rintro ⟨e, he⟩
        rw [hok] at he
        cases he
      · intro hn
        exact absurd ⟨t, ht.symm⟩ hn
    · have hf : HasPrefix r.URL.Path "/repo/".toList = false := Bool.eq_false_iff.mpr hp
      have herr : RepoGetName r = Except.error ("Invalid path: ".toList ++ r.URL.Path) := by
        unfold RepoGetName
        simp only [hf, Bool.not_false, if_true]
      constructor
      · rintro - ⟨t, ht⟩
        exact hp ((hasPrefix_iff _ _).mpr ⟨t, ht.symm⟩)
      · intro _
        exact ⟨_, herr⟩
  · intro hm
    obtain ⟨rest, hpath, hne, hns⟩ := (repoRe_match _).mp hm
    refine ⟨rest, ?_, hne, hns, hpath.symm⟩
    unfold RepoGetName
    have hp : HasPrefix r.URL.Path "/repo/".toList = true := by
      rw [hpath]; exact hasPrefix_append _ _
    have ht : TrimPrefix r.URL.Path "/repo/".toList = rest := by
      rw [hpath]; exact trimPrefix_append _ _
    simp only [hp, ht, Bool.not_true, Bool.false_eq_true, if_false]

/-- C17 at work: on `/repo/org/img`, accepted by the repo pattern, the parser
returns `org/img`; on `/repos/` it returns an error. -/
theorem repoGetName_agrees_with_route_witness :
    (∃ name : GoString,
      RepoGetName ⟨MethodGet, ⟨"/repo/org/img".toList⟩, []⟩ = Except.ok name ∧ name ≠ [] ∧
        (∀ c ∈ name, isSpace c = false) ∧ "/repo/".toList ++ name = "/repo/org/img".toList) ∧
    RepoGetName ⟨MethodGet, ⟨"/repo/org/img".toList⟩, []⟩ = Except.ok "org/img".toList ∧
    (∃ e, RepoGetName ⟨MethodGet, ⟨"/repos/".toList⟩, []⟩ = Except.error e) :=
  ⟨(repoGetName_agrees_with_route ⟨MethodGet, ⟨"/repo/org/img".toList⟩, []⟩).2.1 (by decide),
    rfl,
    (repoGetName_agrees_with_route ⟨MethodGet, ⟨"/repos/".toList⟩, []⟩).1.mpr (by decide)⟩

/-- C18: the image route is more permissive than the image parser. For every
path the image pattern accepts, `ImageGetNameAndTag` fails if and only if the
path ends in a colon; the dispatcher all the same runs GetImage on GET for
every accepted path: `GET /image/foo:` is dispatched, not answered 404, and
the parser fails on it. -/
theorem image_route_more_permissive (r : Request) :
    (imageRe.MatchString r.URL.Path = true →
      ((∃ e, ImageGetNameAndTag r = Except.error e) ↔
        ∃ a : GoString, r.URL.Path = a ++ ":".toList)) ∧
    (imageRe.MatchString r.URL.Path = true → r.Method = MethodGet →
      selectOp routeCases r.Method r.URL.Path = some Op.GetImage ∧
      ∀ (h : RegistryServer) (w : ResponseWriter) (s : World),
        h.ServeHTTP w r s = h.Client.GetImage w r
          (w.HeaderSet "content-type".toList "application/json".toList s)) ∧
    (imageRe.MatchString "/image/foo:".toList = true ∧
      selectOp routeCases MethodGet "/image/foo:".toList = some Op.GetImage ∧
      ImageGetNameAndTag ⟨MethodGet, ⟨"/image/foo:".toList⟩, []⟩ =
        Except.error ("Invalid tag in path: ".toList ++ "/image/foo:".toList) ∧
      (RegistryServer.ServeHTTP ⟨probeClient⟩ serverWriter
          ⟨MethodGet, ⟨"/image/foo:".toList⟩, []⟩ (World.fresh [])).wire =
        [WriterCall.HeaderSet "content-type".toList "application/json".toList,
          WriterCall.Write "GetImage".toList]) := by
  refine ⟨fun hm => ?_, fun hm hget => ?_, ⟨by decide, by decide, rfl, by decide⟩⟩
  · obtain ⟨rest, hpath, hne, -⟩ := (imageRe_match _).mp hm
    by_cases hx : ':' ∈ rest
    · obtain ⟨a, b, hab, hb⟩ := exists_last_colon rest hx
      have hres := imageGetNameAndTag_last_colon r a b (by rw [hpath, hab]) hb
      by_cases hbe : b = []
      · rw [if_pos hbe] at hres
        constructor
        · intro _
          refine ⟨"/image/".toList ++ a, ?_⟩
          rw [hpath, hab, hbe]
          simp
        · intro _
          exact ⟨_, hres⟩
      · rw [if_neg hbe] at hres
        constructor
        · rintro ⟨e, he⟩
          rw [hres] at he
          cases he
        · rintro ⟨q, hq⟩
          have hp2 : r.URL.Path = ("/image/".toList ++ (a ++ [':'])) ++ b := by
            rw [hpath, hab]
            simp
          have hq2 : ("/image/".toList ++ (a ++ [':'])) ++ b = q ++ [':'] :=
            hp2.symm.trans hq
          exact absurd (colon_mem_of_ends_colon _ b q hq2 hbe) hb
    · have hres := imageGetNameAndTag_no_colon r rest hpath hx
      constructor
      · rintro ⟨e, he⟩
        rw [hres] at he
        cases he
      · rintro ⟨q, hq⟩
        have hq2 : "/image/".toList ++ rest = q ++ [':'] :=
          hpath.symm.trans hq
        exact absurd (colon_mem_of_ends_colon _ rest q hq2 hne) hx
  · have hsel : selectOp routeCases r.Method r.URL.Path = some Op.GetImage := by
      rw [hget]
      exact selectOp_get_image _ hm
    exact ⟨hsel, fun h w s => serveHTTP_of_selectOp_some h w r s _ hsel⟩

/-- C18 at work: `/image/foo:` is accepted by the image pattern and ends in a
colon, so the parser fails on it; `/image/foo:v1` is accepted and does not. -/
theorem image_route_more_permissive_witness :
    ((∃ e, ImageGetNameAndTag ⟨MethodGet, ⟨"/image/foo:".toList⟩, []⟩ = Except.error e) ↔
      ∃ a : GoString, "/image/foo:".toList = a ++ ":".toList) ∧
    (∃ a : GoString, "/image/foo:".toList = a ++ ":".toList) ∧
    ((∃ e, ImageGetNameAndTag ⟨MethodGet, ⟨"/image/foo:v1".toList⟩, []⟩ = Except.error e) ↔
      ∃ a : GoString, "/image/foo:v1".toList = a ++ ":".toList) ∧
    ImageGetNameAndTag ⟨MethodGet, ⟨"/image/foo:v1".toList⟩, []⟩ =
      Except.ok ("foo".toList, "v1".toList) :=
  ⟨(image_route_more_permissive ⟨MethodGet, ⟨"/image/foo:".toList⟩, []⟩).1 (by decide),
    ⟨"/image/foo".toList, rfl⟩,
    (image_route_more_permissive ⟨MethodGet, ⟨"/image/foo:v1".toList⟩, []⟩).1 (by decide),
    rfl⟩

/-- C19 fails as stated: on the path `/image/` alone, which is not `/image/:`
followed by anything, `ImageGetNameAndTag` succeeds with the empty name and the
tag `latest`. -/
theorem image_path_alone_has_empty_name :
    ImageGetNameAndTag ⟨MethodGet, ⟨"/image/".toList⟩, []⟩ =
      Except.ok ([], "latest".toList) ∧
    ¬ (∃ t : GoString, "/image/".toList = "/image/:".toList ++ t ∧ t ≠ [] ∧ ':' ∉ t) := by
  refine ⟨rfl, ?_⟩
  rintro ⟨t, ht, -⟩
  simp at ht

/-- C19, amended: `ImageGetNameAndTag` can succeed with an empty repository
name. It returns success with the empty name if and only if the path is
`/image/` alone (the tag is then `latest`) or `/image/:` followed by a
non-empty `t` without colon (the tag is then `t`). The path `/image/` is not
accepted by the image pattern; the paths `/image/:` followed by a non-empty `t`
without whitespace are accepted and GET on them selects GetImage, so a backend
can be handed an empty repository name. -/
theorem imageGetNameAndTag_empty_name (r : Request) :
    ((∃ tag : GoString, ImageGetNameAndTag r = Except.ok ([], tag)) ↔
      (r.URL.Path = "/image/".toList ∨
        ∃ t : GoString, r.URL.Path = "/image/:".toList ++ t ∧ t ≠ [] ∧ ':' ∉ t)) ∧
    (r.URL.Path = "/image/".toList →
      ImageGetNameAndTag r = Except.ok ([], "latest".toList)) ∧
    (∀ t : GoString, r.URL.Path = "/image/:".toList ++ t → t ≠ [] → ':' ∉ t →
      ImageGetNameAndTag r = Except.ok ([], t)) ∧
    (∀ t : GoString, t ≠ [] → (∀ c ∈ t, isSpace c = false) →
      imageRe.MatchString ("/image/:".toList ++ t) = true ∧
      selectOp routeCases MethodGet ("/image/:".toList ++ t) = some Op.GetImage) ∧
    imageRe.MatchString "/image/".toList = false := by
  have halone : r.URL.Path = "/image/".toList →
      ImageGetNameAndTag r = Except.ok ([], "latest".toList) := by
    intro hp
    exact imageGetNameAndTag_no_colon r [] (by rw [hp]; rfl) (by simp)
  have hcolon : ∀ t : GoString, r.URL.Path = "/image/:".toList ++ t → t ≠ [] → ':' ∉ t →
      ImageGetNameAndTag r = Except.ok ([], t) := by
    intro t hp hne hc
    have hres := imageGetNameAndTag_last_colon r [] t (by rw [hp]; rfl) hc
    rw [if_neg hne] at hres
    exact hres
  refine ⟨⟨?_, ?_⟩, halone, hcolon, ?_, by decide⟩
  · rintro ⟨tag, hok⟩
    by_cases hpre : HasPrefix r.URL.Path "/image/".toList = true
    · obtain ⟨x, hp⟩ := (hasPrefix_iff _ _).mp hpre
      by_cases hx : ':' ∈ x
      · obtain ⟨a, b, hab, hb⟩ := exists_last_colon x hx
        rw [imageGetNameAndTag_last_colon r a b (by rw [hp, hab]) hb] at hok
        by_cases hbe : b = []
        · rw [if_pos hbe] at hok
          cases hok
        · rw [if_neg hbe] at hok
          injection hok with hok
          injection hok with h1 h2
          subst h1
          refine Or.inr ⟨b, ?_, hbe, hb⟩
          rw [hp, hab]
          rfl
      · rw [imageGetNameAndTag_no_colon r x hp hx] at hok
        injection hok with hok
        injection hok with h1 h2
        refine Or.inl ?_
        rw [hp, h1]
        rfl
    · have hf : HasPrefix r.URL.Path "/image/".toList = false := Bool.eq_false_iff.mpr hpre
      rw [imageGetNameAndTag_not_image_path r hf] at hok
      cases hok
  · rintro (hp | ⟨t, hp, hne, hc⟩)
    · exact ⟨_, halone hp⟩
    · exact ⟨t, hcolon t hp hne hc⟩
  · intro t hne hns
    have hm : imageRe.MatchString ("/image/:".toList ++ t) = true := by
      rw [imageRe_match]
      refine ⟨':' :: t, rfl, by simp, ?_⟩
      intro c hc
      rcases List.mem_cons.mp hc with rfl | hc
      · decide
      · exact hns c hc
    exact ⟨hm, selectOp_get_image _ hm⟩

/-- C19 amended, at work: `/image/:v1` gives the empty name and the tag `v1`,
and GET on it selects GetImage. -/
theorem imageGetNameAndTag_empty_name_witness :
    ImageGetNameAndTag ⟨MethodGet, ⟨"/image/:".toList ++ "v1".toList⟩, []⟩ =
      Except.ok ([], "v1".toList) ∧
    (imageRe.MatchString ("/image/:".toList ++ "v1".toList) = true ∧
      selectOp routeCases MethodGet ("/image/:".toList ++ "v1".toList) = some Op.GetImage) :=
  ⟨(imageGetNameAndTag_empty_name
      ⟨MethodGet, ⟨"/image/:".toList ++ "v1".toList⟩, []⟩).2.2.1 "v1".toList rfl
      (by decide) (by decide),
    (imageGetNameAndTag_empty_name
      ⟨MethodGet, ⟨"/image/:".toList ++ "v1".toList⟩, []⟩).2.2.2.1 "v1".toList
      (by decide) (by decide)⟩

end Common
